import Mathlib

/-!
# dct2.c : two-dimensional DCT routines

Shallow embedding of `src/libs/dct2.c` (`dctiv_2`, `dct_2`, `dctiv_row`, `dct_row`).

* A `float **` array is a `Grid α`: a list of rows, indexed `[slow][fast]`.
* Every C array access is bounds checked; an access outside the array stops the
  call, which then reports the contents of the caller's array at that moment.
* The sample type `α` is generic: the code only uses `0.`, `+` and `*` on samples.
* The memory touched by a mixer is the pair `(x, tmp)`; the table `c` is only read.
-/

namespace Dct2

deriving instance DecidableEq for Except

/-- A C `float **`: a list of rows, each a list of samples. -/
abbrev Grid (α : Type) := List (List α)

/-- Bounds-checked read of `g[i][k]`. -/
def Grid.read {α : Type} (g : Grid α) (i k : Nat) : Option α :=
  match g[i]? with
  | none => none
  | some row => row[k]?

/-- Bounds-checked store `g[i][k] = v`. -/
def Grid.write {α : Type} (g : Grid α) (i k : Nat) (v : α) : Option (Grid α) :=
  match g[i]? with
  | none => none
  | some row => if k < row.length then some (g.set i (row.set k v)) else none

/-- The value of `g[i][k]`, `0` when the index is outside the grid. -/
def Grid.val {α : Type} [Zero α] (g : Grid α) (i k : Nat) : α :=
  (g.read i k).getD 0

/-- The grid has `rows` rows, each of length `cols`. -/
def Grid.HasShape {α : Type} (g : Grid α) (rows cols : Nat) : Prop :=
  g.length = rows ∧ ∀ r ∈ g, r.length = cols

instance {α : Type} (g : Grid α) (rows cols : Nat) : Decidable (g.HasShape rows cols) := by
  unfold Grid.HasShape; infer_instance

/-- The grid with `rows` rows of length `cols` holding `f i k` at `[i][k]`. -/
def Grid.tabulate {α : Type} (rows cols : Nat) (f : Nat → Nat → α) : Grid α :=
  (List.range rows).map fun i => (List.range cols).map fun k => f i k

/-- Modelled from the spec: `alloc2float(n1, n2)` of the CWP library, whose code is
not in `dct2.c` ("allocate an n1×n2 scratch buffer").  The argument `heap` is what
the allocator finds: `none` when the allocation fails, otherwise the unspecified
values the fresh cells hold.  The buffer has `n2` rows of length `n1`. -/
def alloc2float {α : Type} (heap : Option (Nat → Nat → α)) (n1 n2 : Nat) : Option (Grid α) :=
  match heap with
  | none => none
  | some junk => some (Grid.tabulate n2 n1 junk)

/-- The memory a mixer works on: the caller's array `x` and the scratch buffer `tmp`. -/
structure Mem (α : Type) where
  x : Grid α
  tmp : Grid α

/-- Iterations `i, i+1, ..., i+m-1` of a C `for` loop body over a state; the first
iteration that stops (`.error`) stops the loop. -/
def loopFrom {σ : Type} (body : Nat → σ → Except σ σ) : Nat → Nat → σ → Except σ σ
  | 0, _, s => .ok s
  | m + 1, i, s =>
    match body i s with
    | .error e => .error e
    | .ok s' => loopFrom body m (i + 1) s'

/-- C loop `for (i = 0; i < n; i++) body`. -/
def forLoop {σ : Type} (n : Nat) (body : Nat → σ → Except σ σ) (s : σ) : Except σ σ :=
  loopFrom body n 0 s

/-- Statement `tmp[i][k] = 0.;` -/
def zeroCell {α : Type} [Zero α] (i k : Nat) (m : Mem α) : Except (Mem α) (Mem α) :=
  match m.tmp.write i k 0 with
  | some t => .ok { m with tmp := t }
  | none => .error m

/-- Statement `tmp[i][k] += x[j][k]*c[a][b];` -/
def accCell {α : Type} [Add α] [Mul α] (c : Grid α) (i k j a b : Nat) (m : Mem α) :
    Except (Mem α) (Mem α) :=
  match m.tmp.read i k, m.x.read j k, c.read a b with
  | some t, some xv, some cv =>
    match m.tmp.write i k (t + xv * cv) with
    | some t' => .ok { m with tmp := t' }
    | none => .error m
  | _, _, _ => .error m

/-- Statement `x[i][k] = tmp[i][k];` -/
def copyCell {α : Type} (i k : Nat) (m : Mem α) : Except (Mem α) (Mem α) :=
  match m.tmp.read i k with
  | some v =>
    match m.x.write i k v with
    | some x' => .ok { m with x := x' }
    | none => .error m
  | none => .error m

/-- Sequencing of two parts of a function body: the second runs on the memory the
first leaves, unless the first stopped. -/
def andThen {σ : Type} (r : Except σ σ) (next : σ → Except σ σ) : Except σ σ :=
  match r with
  | .error e => .error e
  | .ok s => next s

/-- What the caller sees when a mixer is over: its array `x` (the scratch buffer is
released). -/
def leave {α : Type} (r : Except (Mem α) (Mem α)) : Except (Grid α) (Grid α) :=
  match r with
  | .error e => .error e.x
  | .ok m => .ok m.x

/-- `dctiv_row` (dct2.c lines 98-132): in place IV-type DCT along the rows. -/
def dctiv_row {α : Type} [Zero α] [Add α] [Mul α] (heap : Option (Nat → Nat → α))
    (x : Grid α) (n1 n2 : Nat) (c : Grid α) : Except (Grid α) (Grid α) :=
  match alloc2float heap n1 n2 with
  | none => .error x
  | some tmp =>
    leave <|
      andThen
        (forLoop n2 (fun i m =>
          andThen (forLoop n1 (fun k => zeroCell i k) m)
            (forLoop n2 (fun j => forLoop n1 (fun k => accCell c i k j i j))))
          { x := x, tmp := tmp })
        (forLoop n2 (fun i => forLoop n1 (fun k => copyCell i k)))

/-- `dct_row` (dct2.c lines 137-188): in place DCT along the rows; `type` is the C
`int` flag, tested by `if(!type)`. -/
def dct_row {α : Type} [Zero α] [Add α] [Mul α] (heap : Option (Nat → Nat → α))
    (x : Grid α) (n1 n2 : Nat) (c : Grid α) (type : Int) : Except (Grid α) (Grid α) :=
  match alloc2float heap n1 n2 with
  | none => .error x
  | some tmp =>
    leave <|
      andThen
        (if type = 0 then
          forLoop n2 (fun i m =>
            andThen (forLoop n1 (fun k => zeroCell i k) m)
              (forLoop n2 (fun j => forLoop n1 (fun k => accCell c i k j i j))))
            { x := x, tmp := tmp }
        else
          andThen
            (forLoop n2 (fun i => forLoop n1 (fun k => zeroCell i k)) { x := x, tmp := tmp })
            (forLoop n2 (fun j => forLoop n2 (fun i => forLoop n1 (fun k => accCell c i k j j i)))))
        (forLoop n2 (fun i => forLoop n1 (fun k => copyCell i k)))

/-- Statement `prim(x[i], ...)`: the external one-dimensional primitive works in
place on row `i` of `x`. -/
def rowCall {α : Type} (prim : List α → List α) (i : Nat) (x : Grid α) :
    Except (Grid α) (Grid α) :=
  match x[i]? with
  | none => .error x
  | some row => .ok (x.set i (prim row))

/-- `dctiv_2` (dct2.c lines 50-72).  The external primitive `dctiv(row, n1, c1)` is a
parameter. -/
def dctiv_2 {α : Type} [Zero α] [Add α] [Mul α] (heap : Option (Nat → Nat → α))
    (dctiv : List α → Nat → Grid α → List α)
    (x : Grid α) (n1 n2 : Nat) (c1 c2 : Grid α) : Except (Grid α) (Grid α) :=
  match forLoop n2 (fun i => rowCall (fun row => dctiv row n1 c1) i) x with
  | .error e => .error e
  | .ok x1 => dctiv_row heap x1 n1 n2 c2

/-- `dct_2` (dct2.c lines 75-95).  The external primitive `dct(row, n1, c1, type)` is a
parameter. -/
def dct_2 {α : Type} [Zero α] [Add α] [Mul α] (heap : Option (Nat → Nat → α))
    (dct : List α → Nat → Grid α → Int → List α)
    (x : Grid α) (n1 n2 : Nat) (c1 c2 : Grid α) (type : Int) : Except (Grid α) (Grid α) :=
  match forLoop n2 (fun i => rowCall (fun row => dct row n1 c1 type) i) x with
  | .error e => .error e
  | .ok x1 => dct_row heap x1 n1 n2 c2 type

/-- Left-to-right accumulation from zero: `(((0 + t 0) + t 1) + ...) + t (n-1)`. -/
def accum {α : Type} [Zero α] [Add α] (t : Nat → α) : Nat → α
  | 0 => 0
  | n + 1 => accum t n + t n

/-- The array a mixer is expected to leave: output row `i` is the accumulation over
the input rows `j` (ascending) of `x[j][k] * w i j`, for the weight `w i j` of input
row `j` in output row `i`. -/
def mixWith {α : Type} [Zero α] [Add α] [Mul α] (w : Nat → Nat → α) (x : Grid α)
    (n1 n2 : Nat) : Grid α :=
  Grid.tabulate n2 n1 fun i k => accum (fun j => x.val j k * w i j) n2

/-- Sum of two rows, sample by sample. -/
def rowAdd {α : Type} [Add α] (r s : List α) : List α :=
  List.zipWith (fun u v => u + v) r s

/-- The row `r` with every sample multiplied by `a` (the factor on the right, as in
`x[j][k]*c[i][j]`). -/
def rowScale {α : Type} [Mul α] (a : α) (r : List α) : List α :=
  r.map fun v => v * a

/-- The array `x` with every sample multiplied by `a`. -/
def Grid.scale {α : Type} [Mul α] (a : α) (x : Grid α) : Grid α :=
  x.map (rowScale a)

/-- The combination `a·x + b·y` of two arrays, sample by sample. -/
def Grid.lin {α : Type} [Add α] [Mul α] (a : α) (x : Grid α) (b : α) (y : Grid α) : Grid α :=
  List.zipWith (fun r s => rowAdd (rowScale a r) (rowScale b s)) x y

/-- The combination of the rows `rows 0, ..., rows (n-1)` with the coefficients
`coef 0, ..., coef (n-1)`, accumulated from the zero row of length `n1`. -/
def rowComb {α : Type} [Zero α] [Add α] [Mul α] (coef : Nat → α) (rows : Nat → List α)
    (n1 : Nat) : Nat → List α
  | 0 => List.replicate n1 0
  | n + 1 => rowAdd (rowComb coef rows n1 n) (rowScale (coef n) (rows n))

/-- The row transform `D` is a linear map on the rows of length `n1`: it keeps the
length, and commutes with the sum of two rows and with scaling. -/
def LinearOnRows {α : Type} [Add α] [Mul α] (D : List α → List α) (n1 : Nat) : Prop :=
  (∀ r : List α, r.length = n1 → (D r).length = n1) ∧
  (∀ r s : List α, r.length = n1 → s.length = n1 → D (rowAdd r s) = rowAdd (D r) (D s)) ∧
  (∀ (a : α) (r : List α), r.length = n1 → D (rowScale a r) = rowScale a (D r))

/-- The array `x` with its rows permuted by `p`: row `i` of the result is row `p i`
of `x`. -/
def permuteRows {α : Type} {n2 : Nat} (p : Equiv.Perm (Fin n2)) (x : Grid α) : Grid α :=
  List.ofFn fun i : Fin n2 => x.getD (p i).val []

/-- During the accumulation: the caller's array is still `x0`, the scratch buffer has
its shape and holds `T a b` at every `[a][b]` inside it. -/
def Mem.TmpIs {α : Type} [Zero α] (m : Mem α) (x0 : Grid α) (n1 n2 : Nat)
    (T : Nat → Nat → α) : Prop :=
  m.x = x0 ∧ m.tmp.HasShape n2 n1 ∧ ∀ a b, a < n2 → b < n1 → m.tmp.val a b = T a b

/-- During the copy back: the scratch buffer is still `t0`, the caller's array has its
shape and holds `X a b` at every `[a][b]` inside it. -/
def Mem.XIs {α : Type} [Zero α] (m : Mem α) (t0 : Grid α) (n1 n2 : Nat)
    (X : Nat → Nat → α) : Prop :=
  m.tmp = t0 ∧ m.x.HasShape n2 n1 ∧ ∀ a b, a < n2 → b < n1 → m.x.val a b = X a b

/-- The memories of two runs agree on the cells in `S`: the caller's array is the
same, both scratch buffers have their shape and they hold the same value at every
`[a][b]` with `S a b`. -/
def Mem.Agree {α : Type} [Zero α] (S : Nat → Nat → Prop) (n1 n2 : Nat) (m m' : Mem α) : Prop :=
  m.x = m'.x ∧ m.tmp.HasShape n2 n1 ∧ m'.tmp.HasShape n2 n1 ∧
    ∀ a b, a < n2 → b < n1 → S a b → m.tmp.val a b = m'.tmp.val a b

/-- Two runs end the same way: both go on, with memories related by `Q`, or both stop,
with the same caller's array. -/
def SameOutcome {α : Type} (Q : Mem α → Mem α → Prop) (r r' : Except (Mem α) (Mem α)) : Prop :=
  match r, r' with
  | .ok m, .ok m' => Q m m'
  | .error e, .error e' => e.x = e'.x
  | _, _ => False

/-- Formal expressions over named samples, with an addition and a multiplication that
satisfy no law at all: two expressions are equal only when they are built in the same
order.  Used to observe the order of the operations of a mixer. -/
inductive Sym where
  | zero : Sym
  | var : Nat → Sym
  | add : Sym → Sym → Sym
  | mul : Sym → Sym → Sym
  deriving DecidableEq

instance : Zero Sym := ⟨Sym.zero⟩

instance : Add Sym := ⟨Sym.add⟩

instance : Mul Sym := ⟨Sym.mul⟩

/-! ## The embedding on small inputs -/

example : dct_row (some fun _ _ => 7) [[1], [0]] 1 2 [[1, 1], [1, -1]] (0 : Int)
    = .ok ([[1], [1]] : Grid Int) := by decide
example : dct_row (some fun _ _ => 7) [[1], [1]] 1 2 [[1, 1], [1, -1]] (1 : Int)
    = .ok ([[2], [0]] : Grid Int) := by decide
example : dct_row (some fun _ _ => 7) [[1, 2], [3, 4]] 2 2 [[1, 2], [3, 5]] (0 : Int)
    = .ok ([[7, 10], [18, 26]] : Grid Int) := by decide
example : dct_row (some fun _ _ => 7) [[1, 2], [3, 4]] 2 2 [[1, 2], [3, 5]] (1 : Int)
    = .ok ([[10, 14], [17, 24]] : Grid Int) := by decide
example : dctiv_row (some fun _ _ => 7) [[1, 2], [3, 4]] 2 2 [[1, 2], [3, 5]]
    = .ok ([[7, 10], [18, 26]] : Grid Int) := by decide
example : dct_row (some fun _ _ => 7) [[1, 2], [3, 4]] 2 2 [[1, 2], [3]] (0 : Int)
    = .error ([[1, 2], [3, 4]] : Grid Int) := by decide
example : dct_2 (some fun _ _ => 7) (fun row _ _ _ => row.reverse)
    [[1, 2], [3, 4]] 2 2 [] [[1, 2], [3, 5]] (0 : Int)
    = .ok ([[10, 7], [26, 18]] : Grid Int) := by decide

example : permuteRows (Equiv.swap (0 : Fin 2) 1) ([[1, 2], [3, 4]] : Grid Int)
    = [[3, 4], [1, 2]] := by decide

/-! ## Grids: reads and stores inside the shape -/

theorem Grid.read_of_shape {α : Type} [Zero α] {g : Grid α} {r c i k : Nat}
    (h : g.HasShape r c) (hi : i < r) (hk : k < c) : g.read i k = some (g.val i k) := by
  obtain ⟨hl, hr⟩ := h
  have hi' : i < g.length := by omega
  have hrow : (g[i]).length = c := hr _ (List.getElem_mem hi')
  have hk' : k < (g[i]).length := by omega
  simp [Grid.val, Grid.read, List.getElem?_eq_getElem hi', List.getElem?_eq_getElem hk']

theorem Grid.write_of_shape {α : Type} [Zero α] {g : Grid α} {r c i k : Nat} (v : α)
    (h : g.HasShape r c) (hi : i < r) (hk : k < c) :
    ∃ g', g.write i k v = some g' ∧ g'.HasShape r c ∧
      ∀ a b, g'.val a b = if a = i ∧ b = k then v else g.val a b := by
  obtain ⟨hl, hr⟩ := h
  have hi' : i < g.length := by omega
  have hrow : (g[i]).length = c := hr _ (List.getElem_mem hi')
  have hk' : k < (g[i]).length := by omega
  refine ⟨g.set i ((g[i]).set k v), ?_, ⟨?_, ?_⟩, ?_⟩
  · simp [Grid.write, List.getElem?_eq_getElem hi', hk']
  · simp [hl]
  · intro row hrow'
    rcases List.mem_or_eq_of_mem_set hrow' with hm | he
    · exact hr _ hm
    · simp [he, hrow]
  · intro a b
    by_cases ha : a = i
    · subst ha
      by_cases hb : b = k
      · subst hb
        simp [Grid.val, Grid.read, hi', hk']
      · have hb' : ¬ (k = b) := fun e => hb e.symm
        simp [Grid.val, Grid.read, hi', hb, hb', List.getElem?_set, List.getElem?_eq_getElem hi']
    · have ha' : ¬ (i = a) := fun e => ha e.symm
      simp [Grid.val, Grid.read, ha, ha', List.getElem?_set]

theorem Grid.val_eq_getElem {α : Type} [Zero α] (g : Grid α) (i k : Nat)
    (hi : i < g.length) (hk : k < (g[i]).length) : g.val i k = (g[i])[k] := by
  simp [Grid.val, Grid.read, List.getElem?_eq_getElem hi, List.getElem?_eq_getElem hk]

theorem Grid.ext_of_shape {α : Type} [Zero α] {g g' : Grid α} {r c : Nat}
    (h : g.HasShape r c) (h' : g'.HasShape r c)
    (hv : ∀ i k, i < r → k < c → g.val i k = g'.val i k) : g = g' := by
  obtain ⟨hl, hr⟩ := h
  obtain ⟨hl', hr'⟩ := h'
  apply List.ext_getElem (by omega)
  intro i h1 h2
  have e1 : (g[i]).length = c := hr _ (List.getElem_mem h1)
  have e2 : (g'[i]).length = c := hr' _ (List.getElem_mem h2)
  apply List.ext_getElem (by omega)
  intro k k1 k2
  have := hv i k (by omega) (by omega)
  rwa [Grid.val_eq_getElem g i k h1 k1, Grid.val_eq_getElem g' i k h2 k2] at this

theorem Grid.tabulate_hasShape {α : Type} (r c : Nat) (f : Nat → Nat → α) :
    (Grid.tabulate r c f).HasShape r c := by
  constructor
  · simp [Grid.tabulate]
  · intro row hrow
    simp only [Grid.tabulate, List.mem_map] at hrow
    obtain ⟨i, _, rfl⟩ := hrow
    simp

theorem Grid.tabulate_val {α : Type} [Zero α] {r c : Nat} (f : Nat → Nat → α) {i k : Nat}
    (hi : i < r) (hk : k < c) : (Grid.tabulate r c f).val i k = f i k := by
  rw [Grid.val_eq_getElem _ i k (by simp [Grid.tabulate, hi]) (by simp [Grid.tabulate, hk])]
  simp [Grid.tabulate]

/-! ## Loops -/

theorem loopFrom_inv {σ : Type} (body : Nat → σ → Except σ σ) (P : Nat → σ → Prop) :
    ∀ (m i : Nat) (s : σ), P i s →
      (∀ t u, i ≤ t → t < i + m → P t u → ∃ u', body t u = .ok u' ∧ P (t + 1) u') →
      ∃ s', loopFrom body m i s = .ok s' ∧ P (i + m) s' := by
  intro m
  induction m with
  | zero => intro i s h _; exact ⟨s, rfl, h⟩
  | succ m ih =>
    intro i s h hs
    obtain ⟨u', hb, hP⟩ := hs i s (Nat.le_refl _) (by omega) h
    obtain ⟨s', hl, hP'⟩ := ih (i + 1) u' hP
      (fun t u h1 h2 hp => hs t u (by omega) (by omega) hp)
    refine ⟨s', ?_, ?_⟩
    · simp [loopFrom, hb, hl]
    · have e : i + (m + 1) = i + 1 + m := by omega
      rw [e]; exact hP'

theorem forLoop_inv {σ : Type} (n : Nat) (body : Nat → σ → Except σ σ) (P : Nat → σ → Prop)
    (s : σ) (h0 : P 0 s)
    (hs : ∀ t u, t < n → P t u → ∃ u', body t u = .ok u' ∧ P (t + 1) u') :
    ∃ s', forLoop n body s = .ok s' ∧ P n s' := by
  have := loopFrom_inv body P n 0 s h0 (fun t u _ h2 hp => hs t u (by omega) hp)
  simpa [forLoop] using this

/-! ## The statements of the mixers -/

theorem Mem.TmpIs.congrT {α : Type} [Zero α] {m : Mem α} {x0 : Grid α} {n1 n2 : Nat}
    {T T' : Nat → Nat → α} (h : m.TmpIs x0 n1 n2 T)
    (e : ∀ a b, a < n2 → b < n1 → T a b = T' a b) : m.TmpIs x0 n1 n2 T' :=
  ⟨h.1, h.2.1, fun a b ha hb => (h.2.2 a b ha hb).trans (e a b ha hb)⟩

theorem Mem.XIs.congrX {α : Type} [Zero α] {m : Mem α} {t0 : Grid α} {n1 n2 : Nat}
    {X X' : Nat → Nat → α} (h : m.XIs t0 n1 n2 X)
    (e : ∀ a b, a < n2 → b < n1 → X a b = X' a b) : m.XIs t0 n1 n2 X' :=
  ⟨h.1, h.2.1, fun a b ha hb => (h.2.2 a b ha hb).trans (e a b ha hb)⟩

theorem zeroCell_spec {α : Type} [Zero α] {m : Mem α} {x0 : Grid α} {n1 n2 i k : Nat}
    {T : Nat → Nat → α} (hi : i < n2) (hk : k < n1) (h : m.TmpIs x0 n1 n2 T) :
    ∃ m', zeroCell i k m = .ok m' ∧
      m'.TmpIs x0 n1 n2 (fun a b => if a = i ∧ b = k then 0 else T a b) := by
  obtain ⟨hx, hs, hv⟩ := h
  obtain ⟨t, hw, hs', hv'⟩ := Grid.write_of_shape (0 : α) hs hi hk
  refine ⟨{ m with tmp := t }, by simp [zeroCell, hw], hx, hs', ?_⟩
  intro a b ha hb
  show t.val a b = _
  rw [hv' a b]
  by_cases e : a = i ∧ b = k
  · simp only [e, and_self, if_true]
  · simp only [e, if_false, hv a b ha hb]

theorem accCell_spec {α : Type} [Zero α] [Add α] [Mul α] {m : Mem α} {x0 c : Grid α}
    {n1 n2 rc cc i k j a b : Nat} {T : Nat → Nat → α}
    (hx0 : x0.HasShape n2 n1) (hc : c.HasShape rc cc)
    (hi : i < n2) (hk : k < n1) (hj : j < n2) (ha : a < rc) (hb : b < cc)
    (h : m.TmpIs x0 n1 n2 T) :
    ∃ m', accCell c i k j a b m = .ok m' ∧
      m'.TmpIs x0 n1 n2
        (fun a' b' => if a' = i ∧ b' = k then T i k + x0.val j k * c.val a b else T a' b') := by
  obtain ⟨hx, hs, hv⟩ := h
  obtain ⟨t, hw, hs', hv'⟩ :=
    Grid.write_of_shape (m.tmp.val i k + x0.val j k * c.val a b) hs hi hk
  have r1 := Grid.read_of_shape hs hi hk
  have r2 := Grid.read_of_shape hx0 hj hk
  have r3 := Grid.read_of_shape hc ha hb
  refine ⟨{ m with tmp := t }, ?_, hx, hs', ?_⟩
  · simp [accCell, hx, r1, r2, r3, hw]
  · intro a' b' ha' hb'
    show t.val a' b' = _
    rw [hv' a' b']
    by_cases e : a' = i ∧ b' = k
    · simp only [e, and_self, if_true, hv i k hi hk]
    · simp only [e, if_false, hv a' b' ha' hb']

theorem copyCell_spec {α : Type} [Zero α] {m : Mem α} {t0 : Grid α} {n1 n2 i k : Nat}
    {X : Nat → Nat → α} (ht0 : t0.HasShape n2 n1) (hi : i < n2) (hk : k < n1)
    (h : m.XIs t0 n1 n2 X) :
    ∃ m', copyCell i k m = .ok m' ∧
      m'.XIs t0 n1 n2 (fun a b => if a = i ∧ b = k then t0.val i k else X a b) := by
  obtain ⟨ht, hs, hv⟩ := h
  obtain ⟨x', hw, hs', hv'⟩ := Grid.write_of_shape (t0.val i k) hs hi hk
  have r1 := Grid.read_of_shape ht0 hi hk
  refine ⟨{ m with x := x' }, ?_, ht, hs', ?_⟩
  · simp [copyCell, ht, r1, hw]
  · intro a b ha hb
    show x'.val a b = _
    rw [hv' a b]
    by_cases e : a = i ∧ b = k
    · simp only [e, and_self, if_true]
    · simp only [e, if_false, hv a b ha hb]

/-! ## The loops over the fast index `k` -/

theorem tmpRow_spec {α : Type} [Zero α] {st : Nat → Mem α → Except (Mem α) (Mem α)}
    {F : Nat → α → α} {x0 : Grid α} {n1 n2 i : Nat}
    (hst : ∀ k T m, k < n1 → Mem.TmpIs m x0 n1 n2 T →
      ∃ m', st k m = .ok m' ∧
        Mem.TmpIs m' x0 n1 n2 (fun a b => if a = i ∧ b = k then F k (T i k) else T a b))
    {m : Mem α} {T : Nat → Nat → α} (h : m.TmpIs x0 n1 n2 T) :
    ∃ m', forLoop n1 st m = .ok m' ∧
      m'.TmpIs x0 n1 n2 (fun a b => if a = i then F b (T i b) else T a b) := by
  obtain ⟨m', hl, hP⟩ := forLoop_inv n1 st
    (fun k u => u.TmpIs x0 n1 n2 (fun a b => if a = i ∧ b < k then F b (T i b) else T a b))
    m (h.congrT (fun a b _ _ => by simp)) (by
      intro t u ht hu
      obtain ⟨u', hb, hu'⟩ := hst t _ u ht hu
      refine ⟨u', hb, hu'.congrT ?_⟩
      intro a b _ _
      have e4 : (b < t + 1) ↔ (b < t ∨ b = t) := by omega
      by_cases h1 : a = i <;> by_cases h2 : b = t <;> by_cases h3 : b < t <;>
        simp [h1, h2, h3, e4])
  exact ⟨m', hl, hP.congrT (fun a b _ hb => by simp [hb])⟩

theorem zeroRow_spec {α : Type} [Zero α] {x0 : Grid α} {n1 n2 i : Nat} (hi : i < n2)
    {m : Mem α} {T : Nat → Nat → α} (h : m.TmpIs x0 n1 n2 T) :
    ∃ m', forLoop n1 (fun k => zeroCell i k) m = .ok m' ∧
      m'.TmpIs x0 n1 n2 (fun a b => if a = i then 0 else T a b) :=
  tmpRow_spec (F := fun _ _ => 0) (fun _ _ _ hk hm => zeroCell_spec hi hk hm) h

theorem accRow_spec {α : Type} [Zero α] [Add α] [Mul α] {x0 c : Grid α}
    {n1 n2 rc cc i j a b : Nat} (hx0 : x0.HasShape n2 n1) (hc : c.HasShape rc cc)
    (hi : i < n2) (hj : j < n2) (ha : a < rc) (hb : b < cc)
    {m : Mem α} {T : Nat → Nat → α} (h : m.TmpIs x0 n1 n2 T) :
    ∃ m', forLoop n1 (fun k => accCell c i k j a b) m = .ok m' ∧
      m'.TmpIs x0 n1 n2
        (fun a' b' => if a' = i then T i b' + x0.val j b' * c.val a b else T a' b') :=
  tmpRow_spec (F := fun k v => v + x0.val j k * c.val a b)
    (fun _ _ _ hk hm => accCell_spec hx0 hc hi hk hj ha hb hm) h

theorem copyRow_spec {α : Type} [Zero α] {t0 : Grid α} {n1 n2 i : Nat}
    (ht0 : t0.HasShape n2 n1) (hi : i < n2)
    {m : Mem α} {X : Nat → Nat → α} (h : m.XIs t0 n1 n2 X) :
    ∃ m', forLoop n1 (fun k => copyCell i k) m = .ok m' ∧
      m'.XIs t0 n1 n2 (fun a b => if a = i then t0.val i b else X a b) := by
  obtain ⟨m', hl, hP⟩ := forLoop_inv n1 (fun k => copyCell i k)
    (fun k u => u.XIs t0 n1 n2 (fun a b => if a = i ∧ b < k then t0.val i b else X a b))
    m (h.congrX (fun a b _ _ => by simp)) (by
      intro t u ht hu
      obtain ⟨u', hb, hu'⟩ := copyCell_spec ht0 hi ht hu
      refine ⟨u', hb, hu'.congrX ?_⟩
      intro a b _ _
      have e4 : (b < t + 1) ↔ (b < t ∨ b = t) := by omega
      by_cases h1 : a = i <;> by_cases h2 : b = t <;> by_cases h3 : b < t <;>
        simp [h1, h2, h3, e4])
  exact ⟨m', hl, hP.congrX (fun a b _ hb => by simp [hb])⟩

/-! ## The loop nests -/

theorem andThen_ok {σ : Type} (s : σ) (next : σ → Except σ σ) :
    andThen (.ok s) next = next s := rfl

/-- Forward branch, loop over `j` for one output row `i` (dct2.c lines 121-123 and
164-166). -/
theorem forwardJ_spec {α : Type} [Zero α] [Add α] [Mul α] {x0 c : Grid α} {n1 n2 i : Nat}
    (hx0 : x0.HasShape n2 n1) (hc : c.HasShape n2 n2) (hi : i < n2)
    {m : Mem α} {T : Nat → Nat → α} (h : m.TmpIs x0 n1 n2 T)
    (hz : ∀ b, b < n1 → T i b = 0) :
    ∃ m', forLoop n2 (fun j => forLoop n1 (fun k => accCell c i k j i j)) m = .ok m' ∧
      m'.TmpIs x0 n1 n2
        (fun a b => if a = i then accum (fun j => x0.val j b * c.val i j) n2 else T a b) := by
  refine forLoop_inv n2 _
    (fun j u => u.TmpIs x0 n1 n2
      (fun a b => if a = i then accum (fun j => x0.val j b * c.val i j) j else T a b))
    m (h.congrT ?_) ?_
  · intro a b _ hb
    by_cases h1 : a = i
    · simp [h1, accum, hz b hb]
    · simp [h1]
  · intro t u ht hu
    obtain ⟨u', hb, hu'⟩ := accRow_spec hx0 hc hi ht hi ht hu
    refine ⟨u', hb, hu'.congrT ?_⟩
    intro a b _ _
    by_cases h1 : a = i <;> simp [h1, accum]

/-- Forward branch, loop over the output rows `i` (dct2.c lines 118-124 and 161-167). -/
theorem forwardNest_spec {α : Type} [Zero α] [Add α] [Mul α] {x0 c : Grid α} {n1 n2 : Nat}
    (hx0 : x0.HasShape n2 n1) (hc : c.HasShape n2 n2)
    {m : Mem α} {T : Nat → Nat → α} (h : m.TmpIs x0 n1 n2 T) :
    ∃ m', forLoop n2 (fun i m =>
        andThen (forLoop n1 (fun k => zeroCell i k) m)
          (forLoop n2 (fun j => forLoop n1 (fun k => accCell c i k j i j)))) m = .ok m' ∧
      m'.TmpIs x0 n1 n2 (fun a b => accum (fun j => x0.val j b * c.val a j) n2) := by
  obtain ⟨m', hl, hP⟩ := forLoop_inv n2
    (fun i m =>
        andThen (forLoop n1 (fun k => zeroCell i k) m)
          (forLoop n2 (fun j => forLoop n1 (fun k => accCell c i k j i j))))
    (fun i u => u.TmpIs x0 n1 n2
      (fun a b => if a < i then accum (fun j => x0.val j b * c.val a j) n2 else T a b))
    m (h.congrT (fun a b _ _ => by simp)) (by
      intro t u ht hu
      obtain ⟨u1, h1, hu1⟩ := zeroRow_spec ht hu
      obtain ⟨u2, h2, hu2⟩ := forwardJ_spec hx0 hc ht hu1 (fun b _ => by simp)
      refine ⟨u2, by simp only [h1, andThen_ok, h2], hu2.congrT ?_⟩
      intro a b _ _
      have e4 : (a < t + 1) ↔ (a < t ∨ a = t) := by omega
      by_cases h1 : a = t <;> by_cases h3 : a < t <;> simp [h1, h3, e4])
  exact ⟨m', hl, hP.congrT (fun a b ha _ => by simp [ha])⟩

/-- Inverse branch, zeroing of the whole scratch buffer (dct2.c lines 173-174). -/
theorem zeroAll_spec {α : Type} [Zero α] {x0 : Grid α} {n1 n2 : Nat}
    {m : Mem α} {T : Nat → Nat → α} (h : m.TmpIs x0 n1 n2 T) :
    ∃ m', forLoop n2 (fun i => forLoop n1 (fun k => zeroCell i k)) m = .ok m' ∧
      m'.TmpIs x0 n1 n2 (fun _ _ => 0) := by
  obtain ⟨m', hl, hP⟩ := forLoop_inv n2 (fun i => forLoop n1 (fun k => zeroCell i k))
    (fun i u => u.TmpIs x0 n1 n2 (fun a b => if a < i then 0 else T a b))
    m (h.congrT (fun a b _ _ => by simp)) (by
      intro t u ht hu
      obtain ⟨u1, h1, hu1⟩ := zeroRow_spec ht hu
      refine ⟨u1, h1, hu1.congrT ?_⟩
      intro a b _ _
      have e4 : (a < t + 1) ↔ (a < t ∨ a = t) := by omega
      by_cases h1 : a = t <;> by_cases h3 : a < t <;> simp [h1, h3, e4])
  exact ⟨m', hl, hP.congrT (fun a b ha _ => by simp [ha])⟩

/-- Inverse branch, loop over the output rows `i` for one input row `j` (dct2.c lines
177-179). -/
theorem inverseI_spec {α : Type} [Zero α] [Add α] [Mul α] {x0 c : Grid α} {n1 n2 j : Nat}
    (hx0 : x0.HasShape n2 n1) (hc : c.HasShape n2 n2) (hj : j < n2)
    {m : Mem α} {T : Nat → Nat → α} (h : m.TmpIs x0 n1 n2 T) :
    ∃ m', forLoop n2 (fun i => forLoop n1 (fun k => accCell c i k j j i)) m = .ok m' ∧
      m'.TmpIs x0 n1 n2 (fun a b => T a b + x0.val j b * c.val j a) := by
  obtain ⟨m', hl, hP⟩ := forLoop_inv n2
    (fun i => forLoop n1 (fun k => accCell c i k j j i))
    (fun i u => u.TmpIs x0 n1 n2
      (fun a b => if a < i then T a b + x0.val j b * c.val j a else T a b))
    m (h.congrT (fun a b _ _ => by simp)) (by
      intro t u ht hu
      obtain ⟨u1, h1, hu1⟩ := accRow_spec hx0 hc ht hj hj ht hu
      refine ⟨u1, h1, hu1.congrT ?_⟩
      intro a b _ _
      have e4 : (a < t + 1) ↔ (a < t ∨ a = t) := by omega
      by_cases h1 : a = t <;> by_cases h3 : a < t <;> simp [h1, h3, e4])
  exact ⟨m', hl, hP.congrT (fun a b ha _ => by simp [ha])⟩

/-- Inverse branch, loop over the input rows `j` (dct2.c lines 176-179). -/
theorem inverseNest_spec {α : Type} [Zero α] [Add α] [Mul α] {x0 c : Grid α} {n1 n2 : Nat}
    (hx0 : x0.HasShape n2 n1) (hc : c.HasShape n2 n2)
    {m : Mem α} (h : m.TmpIs x0 n1 n2 (fun _ _ => 0)) :
    ∃ m', forLoop n2
        (fun j => forLoop n2 (fun i => forLoop n1 (fun k => accCell c i k j j i))) m = .ok m' ∧
      m'.TmpIs x0 n1 n2 (fun a b => accum (fun j => x0.val j b * c.val j a) n2) := by
  refine forLoop_inv n2 _
    (fun j u => u.TmpIs x0 n1 n2 (fun a b => accum (fun j => x0.val j b * c.val j a) j))
    m (h.congrT (fun a b _ _ => by simp [accum])) ?_
  intro t u ht hu
  obtain ⟨u1, h1, hu1⟩ := inverseI_spec hx0 hc ht hu
  exact ⟨u1, h1, hu1.congrT (fun a b _ _ => by simp [accum])⟩

/-- Copy back of the scratch buffer (dct2.c lines 126-128 and 182-184). -/
theorem copyBack_spec {α : Type} [Zero α] {t0 : Grid α} {n1 n2 : Nat}
    (ht0 : t0.HasShape n2 n1) {m : Mem α} {X : Nat → Nat → α} (h : m.XIs t0 n1 n2 X) :
    ∃ m', forLoop n2 (fun i => forLoop n1 (fun k => copyCell i k)) m = .ok m' ∧
      m'.XIs t0 n1 n2 (fun a b => t0.val a b) := by
  obtain ⟨m', hl, hP⟩ := forLoop_inv n2 (fun i => forLoop n1 (fun k => copyCell i k))
    (fun i u => u.XIs t0 n1 n2 (fun a b => if a < i then t0.val a b else X a b))
    m (h.congrX (fun a b _ _ => by simp)) (by
      intro t u ht hu
      obtain ⟨u1, h1, hu1⟩ := copyRow_spec ht0 ht hu
      refine ⟨u1, h1, hu1.congrX ?_⟩
      intro a b _ _
      have e4 : (a < t + 1) ↔ (a < t ∨ a = t) := by omega
      by_cases h1 : a = t <;> by_cases h3 : a < t <;> simp [h1, h3, e4])
  exact ⟨m', hl, hP.congrX (fun a b ha _ => by simp [ha])⟩

/-! ## The mixers as a whole -/

theorem copyBack_leave {α : Type} [Zero α] {x0 : Grid α} {n1 n2 : Nat}
    (hx0 : x0.HasShape n2 n1) {m : Mem α} {R : Nat → Nat → α} (h : m.TmpIs x0 n1 n2 R) :
    leave (andThen (.ok m) (forLoop n2 (fun i => forLoop n1 (fun k => copyCell i k))))
      = .ok (Grid.tabulate n2 n1 R) := by
  obtain ⟨hx, hs, hv⟩ := h
  have hX : m.XIs m.tmp n1 n2 (fun a b => x0.val a b) :=
    ⟨rfl, hx ▸ hx0, fun a b _ _ => by rw [hx]⟩
  obtain ⟨m', hl, _, hs', hv'⟩ := copyBack_spec hs hX
  rw [andThen_ok, hl]
  show Except.ok m'.x = _
  congr 1
  apply Grid.ext_of_shape hs' (Grid.tabulate_hasShape n2 n1 R)
  intro i k hi hk
  rw [hv' i k hi hk, Grid.tabulate_val R hi hk]
  exact hv i k hi hk

theorem alloc_tmpIs {α : Type} [Zero α] (junk : Nat → Nat → α) (x : Grid α) (n1 n2 : Nat) :
    Mem.TmpIs { x := x, tmp := Grid.tabulate n2 n1 junk } x n1 n2 junk :=
  ⟨rfl, Grid.tabulate_hasShape n2 n1 junk, fun _ _ ha hb => Grid.tabulate_val junk ha hb⟩

/-- The forward branch of `dct_row` computes `mixWith` with the weights `c[i][j]`. -/
theorem dct_row_forward_eq {α : Type} [Zero α] [Add α] [Mul α] (junk : Nat → Nat → α)
    {x c : Grid α} {n1 n2 : Nat} (hx : x.HasShape n2 n1) (hc : c.HasShape n2 n2) :
    dct_row (some junk) x n1 n2 c 0 = .ok (mixWith (fun i j => c.val i j) x n1 n2) := by
  obtain ⟨m', hl, hm'⟩ := forwardNest_spec hx hc (alloc_tmpIs junk x n1 n2)
  simp only [dct_row, alloc2float, if_true, hl]
  exact copyBack_leave hx hm'

/-- The inverse branch of `dct_row` computes `mixWith` with the weights `c[j][i]`. -/
theorem dct_row_inverse_eq {α : Type} [Zero α] [Add α] [Mul α] (junk : Nat → Nat → α)
    {x c : Grid α} {n1 n2 : Nat} {type : Int} (ht : type ≠ 0)
    (hx : x.HasShape n2 n1) (hc : c.HasShape n2 n2) :
    dct_row (some junk) x n1 n2 c type = .ok (mixWith (fun i j => c.val j i) x n1 n2) := by
  obtain ⟨m1, hl1, hm1⟩ := zeroAll_spec (alloc_tmpIs junk x n1 n2)
  obtain ⟨m', hl, hm'⟩ := inverseNest_spec hx hc hm1
  simp only [dct_row, alloc2float, ht, if_false, hl1, andThen_ok, hl]
  exact copyBack_leave hx hm'

/-- The mixer `dctiv_row` computes `mixWith` with the weights `c[i][j]`. -/
theorem dctiv_row_eq {α : Type} [Zero α] [Add α] [Mul α] (junk : Nat → Nat → α)
    {x c : Grid α} {n1 n2 : Nat} (hx : x.HasShape n2 n1) (hc : c.HasShape n2 n2) :
    dctiv_row (some junk) x n1 n2 c = .ok (mixWith (fun i j => c.val i j) x n1 n2) := by
  obtain ⟨m', hl, hm'⟩ := forwardNest_spec hx hc (alloc_tmpIs junk x n1 n2)
  simp only [dctiv_row, alloc2float, hl]
  exact copyBack_leave hx hm'

theorem accum_eq_sum {α : Type} [AddCommMonoid α] (t : Nat → α) (n : Nat) :
    accum t n = ∑ j in Finset.range n, t j := by
  induction n with
  | zero => simp [accum]
  | succ n ih => rw [accum, ih, Finset.sum_range_succ]

theorem mixWith_hasShape {α : Type} [Zero α] [Add α] [Mul α] (w : Nat → Nat → α)
    (x : Grid α) (n1 n2 : Nat) : (mixWith w x n1 n2).HasShape n2 n1 :=
  Grid.tabulate_hasShape n2 n1 _

theorem mixWith_val {α : Type} [Zero α] [Add α] [Mul α] (w : Nat → Nat → α)
    (x : Grid α) {n1 n2 i k : Nat} (hi : i < n2) (hk : k < n1) :
    (mixWith w x n1 n2).val i k = accum (fun j => x.val j k * w i j) n2 :=
  Grid.tabulate_val _ hi hk

/-! ## The fast pass -/

/-- The loop `for(i=0; i<n2; i++) prim(x[i], ...)` over an array of `n2` rows replaces
every row by its image. -/
theorem fastPass_eq {α : Type} (prim : List α → List α) (x : Grid α) :
    forLoop x.length (fun i => rowCall prim i) x = .ok (x.map prim) := by
  obtain ⟨u, hl, hlen, hu⟩ := forLoop_inv x.length (fun i => rowCall prim i)
    (fun i u => u.length = x.length ∧
      ∀ n, u[n]? = if n < i then (x[n]?).map prim else x[n]?)
    x ⟨rfl, fun n => by simp⟩ (by
      intro t u ht ⟨hlen, hu⟩
      have ht' : t < u.length := by omega
      have e : u[t]? = some x[t] := by
        rw [hu t]; simp [List.getElem?_eq_getElem ht]
      refine ⟨u.set t (prim x[t]), by simp [rowCall, e], by simp [hlen], ?_⟩
      intro n
      rw [List.getElem?_set]
      by_cases h1 : t = n
      · subst h1
        simp [ht', List.getElem?_eq_getElem ht]
      · have e4 : (n < t + 1) ↔ (n < t) := by omega
        simp [h1, hu n, e4])
  rw [hl]
  congr 1
  apply List.ext_getElem?
  intro n
  rw [hu n, List.getElem?_map]
  by_cases h : n < x.length
  · simp [h]
  · simp [h, List.getElem?_eq_none (Nat.le_of_not_lt h)]

theorem map_hasShape {α : Type} {prim : List α → List α} {x : Grid α} {n1 n2 : Nat}
    (hp : ∀ r : List α, r.length = n1 → (prim r).length = n1) (hx : x.HasShape n2 n1) :
    Grid.HasShape (x.map prim) n2 n1 := by
  refine ⟨by simp [hx.1], ?_⟩
  intro r hr
  obtain ⟨r0, h0, rfl⟩ := List.mem_map.1 hr
  exact hp r0 (hx.2 r0 h0)

theorem accum_congr {α : Type} [Zero α] [Add α] {t t' : Nat → α} (n : Nat)
    (h : ∀ j, j < n → t j = t' j) : accum t n = accum t' n := by
  induction n with
  | zero => rfl
  | succ n ih =>
    rw [accum, accum, ih (fun j hj => h j (by omega)), h n (by omega)]

theorem mixWith_congr {α : Type} [Zero α] [Add α] [Mul α] {w w' : Nat → Nat → α}
    (x : Grid α) (n1 n2 : Nat) (h : ∀ i j, i < n2 → j < n2 → w i j = w' i j) :
    mixWith w x n1 n2 = mixWith w' x n1 n2 := by
  apply Grid.ext_of_shape (mixWith_hasShape w x n1 n2) (mixWith_hasShape w' x n1 n2)
  intro i k hi hk
  rw [mixWith_val w x hi hk, mixWith_val w' x hi hk]
  exact accum_congr n2 (fun j hj => by rw [h i j hi hj])

/-- Both branches of `dct_row` at once: the weight of input row `j` in output row `i`
is `c[i][j]` when `type` is `0` and `c[j][i]` otherwise. -/
theorem dct_row_eq {α : Type} [Zero α] [Add α] [Mul α] (junk : Nat → Nat → α)
    {x c : Grid α} {n1 n2 : Nat} (type : Int)
    (hx : x.HasShape n2 n1) (hc : c.HasShape n2 n2) :
    dct_row (some junk) x n1 n2 c type
      = .ok (mixWith (fun i j => if type = 0 then c.val i j else c.val j i) x n1 n2) := by
  by_cases ht : type = 0
  · subst ht
    simpa using dct_row_forward_eq junk hx hc
  · simpa [ht] using dct_row_inverse_eq junk ht hx hc

/-- What `dct_2` leaves for a valid call. -/
theorem dct_2_ok {α : Type} [Zero α] [Add α] [Mul α] (junk : Nat → Nat → α)
    (dct : List α → Nat → Grid α → Int → List α) {x c2 : Grid α} {n1 n2 : Nat}
    (c1 : Grid α) (type : Int) (hx : x.HasShape n2 n1) (hc : c2.HasShape n2 n2)
    (hdct : ∀ r : List α, r.length = n1 → (dct r n1 c1 type).length = n1) :
    dct_2 (some junk) dct x n1 n2 c1 c2 type
      = .ok (mixWith (fun i j => if type = 0 then c2.val i j else c2.val j i)
          (x.map fun row => dct row n1 c1 type) n1 n2) := by
  have e := fastPass_eq (fun row => dct row n1 c1 type) x
  rw [hx.1] at e
  simp only [dct_2, e]
  exact dct_row_eq junk type (map_hasShape hdct hx) hc

/-- What `dctiv_2` leaves for a valid call. -/
theorem dctiv_2_ok {α : Type} [Zero α] [Add α] [Mul α] (junk : Nat → Nat → α)
    (dctiv : List α → Nat → Grid α → List α) {x c2 : Grid α} {n1 n2 : Nat}
    (c1 : Grid α) (hx : x.HasShape n2 n1) (hc : c2.HasShape n2 n2)
    (hdctiv : ∀ r : List α, r.length = n1 → (dctiv r n1 c1).length = n1) :
    dctiv_2 (some junk) dctiv x n1 n2 c1 c2
      = .ok (mixWith (fun i j => c2.val i j) (x.map fun row => dctiv row n1 c1) n1 n2) := by
  have e := fastPass_eq (fun row => dctiv row n1 c1) x
  rw [hx.1] at e
  simp only [dctiv_2, e]
  exact dctiv_row_eq junk (map_hasShape hdctiv hx) hc

/-! ## Rows as vectors -/

theorem Grid.val_eq_getD {α : Type} [Zero α] (g : Grid α) (i k : Nat) :
    g.val i k = (g.getD i []).getD k 0 := by
  unfold Grid.val Grid.read
  rw [List.getD_eq_getElem?_getD, List.getD_eq_getElem?_getD]
  cases h : g[i]? <;> simp

theorem rowComb_length {α : Type} [Zero α] [Add α] [Mul α] (coef : Nat → α)
    (rows : Nat → List α) (n1 n : Nat) (h : ∀ j, j < n → (rows j).length = n1) :
    (rowComb coef rows n1 n).length = n1 := by
  induction n with
  | zero => simp [rowComb]
  | succ n ih =>
    simp [rowComb, rowAdd, rowScale, ih (fun j hj => h j (by omega)), h n (by omega)]

theorem rowComb_eq {α : Type} [Zero α] [Add α] [Mul α] (coef : Nat → α)
    (rows : Nat → List α) (n1 n : Nat) (h : ∀ j, j < n → (rows j).length = n1) :
    rowComb coef rows n1 n
      = (List.range n1).map fun k => accum (fun j => (rows j).getD k 0 * coef j) n := by
  induction n with
  | zero =>
    apply List.ext_getElem (by simp [rowComb])
    intro k h1 h2
    simp [rowComb, accum]
  | succ n ih =>
    have hl := rowComb_length coef rows n1 n (fun j hj => h j (by omega))
    have hn := h n (by omega)
    apply List.ext_getElem (by simp [rowComb, rowAdd, rowScale, hl, hn])
    intro k h1 h2
    have hk : k < n1 := by simpa using h2
    have e := ih (fun j hj => h j (by omega))
    have hk' : k < (rows n).length := by omega
    simp only [rowComb, rowAdd, rowScale, List.getElem_zipWith, List.getElem_map,
      List.getElem_range, accum]
    congr 1
    · simp [e]
    · rw [List.getD_eq_getElem _ _ hk']

theorem rowComb_congr {α : Type} [Zero α] [Add α] [Mul α] (coef : Nat → α)
    {rows rows' : Nat → List α} (n1 n : Nat) (h : ∀ j, j < n → rows j = rows' j) :
    rowComb coef rows n1 n = rowComb coef rows' n1 n := by
  induction n with
  | zero => rfl
  | succ n ih => rw [rowComb, rowComb, ih (fun j hj => h j (by omega)), h n (by omega)]

theorem getD_length_of_shape {α : Type} {x : Grid α} {n1 n2 j : Nat}
    (hx : x.HasShape n2 n1) (hj : j < n2) : (x.getD j []).length = n1 := by
  have hj' : j < x.length := by rw [hx.1]; exact hj
  rw [List.getD_eq_getElem _ _ hj']
  exact hx.2 _ (List.getElem_mem hj')

/-- Output row `i` of a mixer is the combination of the input rows with the weights
`w i j`. -/
theorem mixWith_rows {α : Type} [Zero α] [Add α] [Mul α] (w : Nat → Nat → α)
    {x : Grid α} {n1 n2 : Nat} (hx : x.HasShape n2 n1) :
    mixWith w x n1 n2
      = (List.range n2).map fun i => rowComb (w i) (fun j => x.getD j []) n1 n2 := by
  unfold mixWith Grid.tabulate
  apply List.map_congr_left
  intro i _
  rw [rowComb_eq (w i) (fun j => x.getD j []) n1 n2 (fun j hj => getD_length_of_shape hx hj)]
  apply List.map_congr_left
  intro k _
  exact accum_congr n2 (fun j _ => by rw [Grid.val_eq_getD])

theorem linear_zero {α : Type} [MulZeroClass α] [Add α] {D : List α → List α} {n1 : Nat}
    (hD : LinearOnRows D n1) : D (List.replicate n1 0) = List.replicate n1 0 := by
  have e : rowScale (0 : α) (List.replicate n1 0) = List.replicate n1 0 := by
    simp [rowScale]
  have h := hD.2.2 0 (List.replicate n1 0) (by simp)
  rw [e] at h
  rw [h]
  apply List.ext_getElem (by simp [rowScale, hD.1 (List.replicate n1 0) (by simp)])
  intro k h1 h2
  simp [rowScale]

theorem linear_rowComb {α : Type} [MulZeroClass α] [Add α] {D : List α → List α} {n1 : Nat}
    (hD : LinearOnRows D n1) (coef : Nat → α) (rows : Nat → List α) (n : Nat)
    (h : ∀ j, j < n → (rows j).length = n1) :
    D (rowComb coef rows n1 n) = rowComb coef (fun j => D (rows j)) n1 n := by
  induction n with
  | zero => exact linear_zero hD
  | succ n ih =>
    have hl := rowComb_length coef rows n1 n (fun j hj => h j (by omega))
    have hn := h n (by omega)
    rw [rowComb, rowComb, hD.2.1 _ _ hl (by simp [rowScale, hn]), hD.2.2 _ _ hn,
      ih (fun j hj => h j (by omega))]

/-- Separability: a linear row transform commutes with a mixer. -/
theorem map_mixWith {α : Type} [MulZeroClass α] [Add α] {D : List α → List α}
    {x : Grid α} {n1 n2 : Nat} (hD : LinearOnRows D n1) (w : Nat → Nat → α)
    (hx : x.HasShape n2 n1) :
    (mixWith w x n1 n2).map D = mixWith w (x.map D) n1 n2 := by
  rw [mixWith_rows w hx, mixWith_rows w (map_hasShape hD.1 hx), List.map_map]
  apply List.map_congr_left
  intro i _
  show D (rowComb (w i) (fun j => x.getD j []) n1 n2) = _
  rw [linear_rowComb hD (w i) _ n2 (fun j hj => getD_length_of_shape hx hj)]
  apply rowComb_congr
  intro j hj
  have hj' : j < x.length := by rw [hx.1]; exact hj
  rw [List.getD_eq_getElem _ _ hj', List.getD_eq_getElem _ _ (by simpa using hj')]
  simp

/-! ## Algebra of the mixers (exact arithmetic) -/

/-- Two mixers in a row are one mixer with the product weights. -/
theorem mixWith_mixWith {α : Type} [Semiring α] (v w : Nat → Nat → α) (x : Grid α)
    (n1 n2 : Nat) :
    mixWith v (mixWith w x n1 n2) n1 n2
      = mixWith (fun i m => ∑ j in Finset.range n2, w j m * v i j) x n1 n2 := by
  apply Grid.ext_of_shape (mixWith_hasShape _ _ n1 n2) (mixWith_hasShape _ _ n1 n2)
  intro i k hi hk
  rw [mixWith_val _ _ hi hk, mixWith_val _ _ hi hk, accum_eq_sum, accum_eq_sum]
  have e : ∀ j ∈ Finset.range n2, (mixWith w x n1 n2).val j k * v i j
      = ∑ m in Finset.range n2, x.val m k * (w j m * v i j) := by
    intro j hj
    rw [mixWith_val _ _ (Finset.mem_range.1 hj) hk, accum_eq_sum, Finset.sum_mul]
    exact Finset.sum_congr rfl (fun m _ => mul_assoc _ _ _)
  rw [Finset.sum_congr rfl e, Finset.sum_comm]
  exact Finset.sum_congr rfl (fun m _ => (Finset.mul_sum _ _ _).symm)

/-- The mixer with the identity weights leaves the array as it is. -/
theorem mixWith_one {α : Type} [Semiring α] {x : Grid α} {n1 n2 : Nat}
    (hx : x.HasShape n2 n1) :
    mixWith (fun i m => if i = m then (1 : α) else 0) x n1 n2 = x := by
  apply Grid.ext_of_shape (mixWith_hasShape _ _ n1 n2) hx
  intro i k hi hk
  rw [mixWith_val _ _ hi hk, accum_eq_sum]
  simp [Finset.sum_ite_eq, hi]

theorem map_undo {α : Type} {D E : List α → List α} {x : Grid α} {n1 n2 : Nat}
    (hx : x.HasShape n2 n1) (h : ∀ r : List α, r.length = n1 → E (D r) = r) :
    (x.map D).map E = x := by
  rw [List.map_map]
  conv_rhs => rw [← List.map_id x]
  exact List.map_congr_left (fun r hr => h r (hx.2 r hr))

/-- Reversing a row is a linear map on rows (an example of a row transform). -/
theorem linearOnRows_reverse {α : Type} [Add α] [Mul α] (n1 : Nat) :
    LinearOnRows (fun r : List α => r.reverse) n1 := by
  refine ⟨fun r h => by simp [h], fun r s hr hs => ?_, fun a r _ => by simp [rowScale]⟩
  simp only [rowAdd]
  exact List.reverse_zipWith (hr.trans hs.symm)

/-! ## Linear combinations of arrays -/

theorem lin_hasShape {α : Type} [Add α] [Mul α] (a b : α) {x y : Grid α} {n1 n2 : Nat}
    (hx : x.HasShape n2 n1) (hy : y.HasShape n2 n1) : (Grid.lin a x b y).HasShape n2 n1 := by
  refine ⟨by simp [Grid.lin, hx.1, hy.1], ?_⟩
  intro r hr
  obtain ⟨i, hi, rfl⟩ := List.getElem_of_mem hr
  have hi' : i < x.length ∧ i < y.length := by simpa [Grid.lin] using hi
  simp [Grid.lin, rowAdd, rowScale, hx.2 _ (List.getElem_mem hi'.1),
    hy.2 _ (List.getElem_mem hi'.2)]

theorem lin_val {α : Type} [Zero α] [Add α] [Mul α] (a b : α) {x y : Grid α}
    {n1 n2 i k : Nat} (hx : x.HasShape n2 n1) (hy : y.HasShape n2 n1)
    (hi : i < n2) (hk : k < n1) :
    (Grid.lin a x b y).val i k = x.val i k * a + y.val i k * b := by
  have hix : i < x.length := by rw [hx.1]; exact hi
  have hiy : i < y.length := by rw [hy.1]; exact hi
  have hkx : k < (x[i]).length := by rw [hx.2 _ (List.getElem_mem hix)]; exact hk
  have hky : k < (y[i]).length := by rw [hy.2 _ (List.getElem_mem hiy)]; exact hk
  rw [Grid.val_eq_getElem x i k hix hkx, Grid.val_eq_getElem y i k hiy hky,
    Grid.val_eq_getElem _ i k (by simp [Grid.lin, hix, hiy])
      (by simp [Grid.lin, rowAdd, rowScale, hkx, hky])]
  simp [Grid.lin, rowAdd, rowScale]

theorem map_lin {α : Type} [Add α] [Mul α] {D : List α → List α} {n1 n2 : Nat}
    (hD : LinearOnRows D n1) (a b : α) {x y : Grid α}
    (hx : x.HasShape n2 n1) (hy : y.HasShape n2 n1) :
    (Grid.lin a x b y).map D = Grid.lin a (x.map D) b (y.map D) := by
  apply List.ext_getElem (by simp [Grid.lin])
  intro i h1 h2
  have hi : i < x.length ∧ i < y.length := by simpa [Grid.lin] using h1
  have lx := hx.2 _ (List.getElem_mem hi.1)
  have ly := hy.2 _ (List.getElem_mem hi.2)
  simp only [Grid.lin, List.getElem_map, List.getElem_zipWith]
  rw [hD.2.1 _ _ (by simp [rowScale, lx]) (by simp [rowScale, ly]), hD.2.2 _ _ lx,
    hD.2.2 _ _ ly]

theorem mixWith_lin {α : Type} [CommRing α] (w : Nat → Nat → α) (a b : α) {x y : Grid α}
    {n1 n2 : Nat} (hx : x.HasShape n2 n1) (hy : y.HasShape n2 n1) :
    mixWith w (Grid.lin a x b y) n1 n2
      = Grid.lin a (mixWith w x n1 n2) b (mixWith w y n1 n2) := by
  apply Grid.ext_of_shape (mixWith_hasShape _ _ n1 n2)
    (lin_hasShape a b (mixWith_hasShape _ _ n1 n2) (mixWith_hasShape _ _ n1 n2))
  intro i k hi hk
  rw [lin_val a b (mixWith_hasShape _ _ n1 n2) (mixWith_hasShape _ _ n1 n2) hi hk,
    mixWith_val _ _ hi hk, mixWith_val _ _ hi hk, mixWith_val _ _ hi hk,
    accum_eq_sum, accum_eq_sum, accum_eq_sum, Finset.sum_mul, Finset.sum_mul,
    ← Finset.sum_add_distrib]
  apply Finset.sum_congr rfl
  intro j hj
  rw [lin_val a b hx hy (Finset.mem_range.1 hj) hk]
  ring

/-! ## Row permutations and the fast pass -/

theorem permuteRows_length {α : Type} {n2 : Nat} (p : Equiv.Perm (Fin n2)) (x : Grid α) :
    (permuteRows p x).length = n2 := by
  simp [permuteRows]

theorem permuteRows_map {α : Type} {n2 : Nat} (p : Equiv.Perm (Fin n2))
    (prim : List α → List α) (x : Grid α) (hx : x.length = n2) :
    (permuteRows p x).map prim = permuteRows p (x.map prim) := by
  unfold permuteRows
  rw [List.map_ofFn]
  congr 1
  funext i
  have hi : (p i).val < x.length := by rw [hx]; exact (p i).isLt
  show prim (x.getD (p i).val []) = (x.map prim).getD (p i).val []
  rw [List.getD_eq_getElem _ _ hi, List.getD_eq_getElem _ _ (by simpa using hi)]
  simp

/-- The fast pass on an array of `n2` rows and on the same array with its rows
permuted. -/
theorem fastPass_permute {α : Type} {n2 : Nat} (p : Equiv.Perm (Fin n2))
    (prim : List α → List α) (x : Grid α) (hx : x.length = n2) :
    forLoop n2 (fun i => rowCall prim i) x = .ok (x.map prim) ∧
    forLoop n2 (fun i => rowCall prim i) (permuteRows p x)
      = .ok (permuteRows p (x.map prim)) ∧
    ∀ i, i < n2 → (x.map prim)[i]? = (x[i]?).map prim := by
  refine ⟨?_, ?_, fun i _ => by simp⟩
  · have e := fastPass_eq prim x
    rwa [hx] at e
  · have e := fastPass_eq prim (permuteRows p x)
    rw [permuteRows_length, permuteRows_map p prim x hx] at e
    exact e

/-! ## Scaled arrays -/

theorem scale_hasShape {α : Type} [Mul α] (a : α) {x : Grid α} {n1 n2 : Nat}
    (hx : x.HasShape n2 n1) : (Grid.scale a x).HasShape n2 n1 :=
  map_hasShape (fun r hr => by simp [rowScale, hr]) hx

theorem scale_val {α : Type} [Zero α] [Mul α] (a : α) {x : Grid α} {n1 n2 i k : Nat}
    (hx : x.HasShape n2 n1) (hi : i < n2) (hk : k < n1) :
    (Grid.scale a x).val i k = x.val i k * a := by
  have hix : i < x.length := by rw [hx.1]; exact hi
  have hkx : k < (x[i]).length := by rw [hx.2 _ (List.getElem_mem hix)]; exact hk
  rw [Grid.val_eq_getElem x i k hix hkx,
    Grid.val_eq_getElem _ i k (by simp [Grid.scale, hix]) (by simp [Grid.scale, rowScale, hkx])]
  simp [Grid.scale, rowScale]

/-- The mixer whose weights are `a` on the diagonal and `0` elsewhere scales the array
by `a`. -/
theorem mixWith_diag {α : Type} [Semiring α] (a : α) {x : Grid α} {n1 n2 : Nat}
    (hx : x.HasShape n2 n1) :
    mixWith (fun i m => if m = i then a else 0) x n1 n2 = Grid.scale a x := by
  apply Grid.ext_of_shape (mixWith_hasShape _ _ n1 n2) (scale_hasShape a hx)
  intro i k hi hk
  rw [mixWith_val _ _ hi hk, accum_eq_sum, scale_val a hx hi hk]
  simp [Finset.sum_ite_eq', hi]

/-- With one input row and one output row the mixer scales the row by `w 0 0`. -/
theorem mixWith_single {α : Type} [AddZeroClass α] [Mul α] (w : Nat → Nat → α)
    {x : Grid α} {n1 : Nat} (hx : x.HasShape 1 n1) :
    mixWith w x n1 1 = Grid.scale (w 0 0) x := by
  apply Grid.ext_of_shape (mixWith_hasShape _ _ n1 1) (scale_hasShape _ hx)
  intro i k hi hk
  have e : i = 0 := by omega
  subst e
  rw [mixWith_val _ _ hi hk, scale_val _ hx hi hk]
  simp [accum]

/-! ## Two runs with different scratch contents -/

theorem loopFrom_rel {α : Type} (body : Nat → Mem α → Except (Mem α) (Mem α))
    (P : Nat → Mem α → Mem α → Prop) :
    ∀ (m i : Nat) (s s' : Mem α), P i s s' →
      (∀ t u u', i ≤ t → t < i + m → P t u u' →
        SameOutcome (P (t + 1)) (body t u) (body t u')) →
      SameOutcome (P (i + m)) (loopFrom body m i s) (loopFrom body m i s') := by
  intro m
  induction m with
  | zero => intro i s s' h _; exact h
  | succ m ih =>
    intro i s s' h hs
    have hb := hs i s s' (Nat.le_refl _) (by omega) h
    simp only [loopFrom]
    cases e : body i s with
    | error a =>
      cases e' : body i s' with
      | error a' => rw [e, e'] at hb; exact hb
      | ok b' => rw [e, e'] at hb; exact hb.elim
    | ok b =>
      cases e' : body i s' with
      | error a' => rw [e, e'] at hb; exact hb.elim
      | ok b' =>
        rw [e, e'] at hb
        have := ih (i + 1) b b' hb (fun t u u' h1 h2 hp => hs t u u' (by omega) (by omega) hp)
        have e4 : i + (m + 1) = i + 1 + m := by omega
        rw [e4]; exact this

theorem forLoop_rel {α : Type} (n : Nat) (body : Nat → Mem α → Except (Mem α) (Mem α))
    (P : Nat → Mem α → Mem α → Prop) (s s' : Mem α) (h0 : P 0 s s')
    (hs : ∀ t u u', t < n → P t u u' → SameOutcome (P (t + 1)) (body t u) (body t u')) :
    SameOutcome (P n) (forLoop n body s) (forLoop n body s') := by
  have := loopFrom_rel body P n 0 s s' h0 (fun t u u' _ h2 hp => hs t u u' (by omega) hp)
  simpa [forLoop] using this

theorem SameOutcome.mono {α : Type} {Q Q' : Mem α → Mem α → Prop}
    {r r' : Except (Mem α) (Mem α)} (h : SameOutcome Q r r')
    (hq : ∀ m m', Q m m' → Q' m m') : SameOutcome Q' r r' := by
  cases r <;> cases r' <;> first | exact h | exact hq _ _ h

theorem andThen_rel {α : Type} {Q Q' : Mem α → Mem α → Prop}
    {r r' : Except (Mem α) (Mem α)} (f : Mem α → Except (Mem α) (Mem α))
    (h : SameOutcome Q r r') (hf : ∀ m m', Q m m' → SameOutcome Q' (f m) (f m')) :
    SameOutcome Q' (andThen r f) (andThen r' f) := by
  cases r <;> cases r' <;> first | exact hf _ _ h | exact h | exact h.elim

theorem Mem.Agree.weaken {α : Type} [Zero α] {S S' : Nat → Nat → Prop} {n1 n2 : Nat}
    {m m' : Mem α} (h : Mem.Agree S n1 n2 m m')
    (hs : ∀ a b, a < n2 → b < n1 → S' a b → S a b) : Mem.Agree S' n1 n2 m m' :=
  ⟨h.1, h.2.1, h.2.2.1, fun a b ha hb hS => h.2.2.2 a b ha hb (hs a b ha hb hS)⟩

theorem zeroCell_rel {α : Type} [Zero α] {S : Nat → Nat → Prop} {n1 n2 i k : Nat}
    {m m' : Mem α} (hi : i < n2) (hk : k < n1) (h : Mem.Agree S n1 n2 m m') :
    SameOutcome (Mem.Agree (fun a b => S a b ∨ (a = i ∧ b = k)) n1 n2)
      (zeroCell i k m) (zeroCell i k m') := by
  obtain ⟨hx, hs, hs', hv⟩ := h
  obtain ⟨t, hw, ht, hvt⟩ := Grid.write_of_shape (0 : α) hs hi hk
  obtain ⟨t', hw', ht', hvt'⟩ := Grid.write_of_shape (0 : α) hs' hi hk
  simp only [zeroCell, hw, hw', SameOutcome]
  refine ⟨hx, ht, ht', ?_⟩
  intro a b ha hb hS
  show t.val a b = t'.val a b
  rw [hvt a b, hvt' a b]
  by_cases e : a = i ∧ b = k
  · simp only [e, and_self, if_true]
  · simp only [e, if_false]
    exact hv a b ha hb (hS.resolve_right e)

theorem accCell_rel {α : Type} [Zero α] [Add α] [Mul α] {S : Nat → Nat → Prop}
    {n1 n2 i k : Nat} (c : Grid α) (j a b : Nat)
    {m m' : Mem α} (hi : i < n2) (hk : k < n1) (hS : S i k) (h : Mem.Agree S n1 n2 m m') :
    SameOutcome (Mem.Agree S n1 n2) (accCell c i k j a b m) (accCell c i k j a b m') := by
  obtain ⟨hx, hs, hs', hv⟩ := h
  have r1 := Grid.read_of_shape hs hi hk
  have r1' := Grid.read_of_shape hs' hi hk
  have e1 := hv i k hi hk hS
  cases hxr : m'.x.read j k with
  | none => simp [accCell, hx, hxr, r1, r1', SameOutcome]
  | some xv =>
    cases hcr : c.read a b with
    | none => simp [accCell, hx, hxr, hcr, r1, r1', SameOutcome]
    | some cv =>
      obtain ⟨t, hw, ht, hvt⟩ := Grid.write_of_shape (m'.tmp.val i k + xv * cv) hs hi hk
      obtain ⟨t', hw', ht', hvt'⟩ := Grid.write_of_shape (m'.tmp.val i k + xv * cv) hs' hi hk
      simp only [accCell, hx, hxr, hcr, r1, r1', e1, hw, hw', SameOutcome]
      refine ⟨rfl, ht, ht', ?_⟩
      intro a' b' ha' hb' hS'
      show t.val a' b' = t'.val a' b'
      rw [hvt a' b', hvt' a' b']
      by_cases e : a' = i ∧ b' = k
      · simp only [e, and_self, if_true]
      · simp only [e, if_false]
        exact hv a' b' ha' hb' hS'

theorem zeroRow_rel {α : Type} [Zero α] {S : Nat → Nat → Prop} {n1 n2 i : Nat}
    {m m' : Mem α} (hi : i < n2) (h : Mem.Agree S n1 n2 m m') :
    SameOutcome (Mem.Agree (fun a b => S a b ∨ a = i) n1 n2)
      (forLoop n1 (fun k => zeroCell i k) m) (forLoop n1 (fun k => zeroCell i k) m') := by
  have := forLoop_rel n1 (fun k => zeroCell i k)
    (fun k => Mem.Agree (fun a b => S a b ∨ (a = i ∧ b < k)) n1 n2) m m'
    (h.weaken (fun a b _ _ hS => hS.elim id (fun e => absurd e.2 (Nat.not_lt_zero b))))
    (fun t u u' ht hu => (zeroCell_rel hi ht hu).mono (fun v v' hv => hv.weaken (by
      intro a b _ _ hS
      rcases hS with hS | ⟨e1, e2⟩
      · exact Or.inl (Or.inl hS)
      · by_cases e3 : b = t
        · exact Or.inr ⟨e1, e3⟩
        · exact Or.inl (Or.inr ⟨e1, by omega⟩))))
  exact this.mono (fun v v' hv => hv.weaken (fun a b _ hb hS =>
    hS.elim Or.inl (fun e => Or.inr ⟨e, hb⟩)))

theorem accRow_rel {α : Type} [Zero α] [Add α] [Mul α] {S : Nat → Nat → Prop}
    {n1 n2 i : Nat} (c : Grid α) (j a b : Nat) {m m' : Mem α} (hi : i < n2)
    (hS : ∀ k, k < n1 → S i k) (h : Mem.Agree S n1 n2 m m') :
    SameOutcome (Mem.Agree S n1 n2)
      (forLoop n1 (fun k => accCell c i k j a b) m)
      (forLoop n1 (fun k => accCell c i k j a b) m') :=
  forLoop_rel n1 (fun k => accCell c i k j a b) (fun _ => Mem.Agree S n1 n2) m m' h
    (fun t _ _ ht hu => accCell_rel c j a b hi ht (hS t ht) hu)

theorem forwardJ_rel {α : Type} [Zero α] [Add α] [Mul α] {S : Nat → Nat → Prop}
    {n1 n2 i : Nat} (c : Grid α) {m m' : Mem α} (hi : i < n2)
    (hS : ∀ k, k < n1 → S i k) (h : Mem.Agree S n1 n2 m m') :
    SameOutcome (Mem.Agree S n1 n2)
      (forLoop n2 (fun j => forLoop n1 (fun k => accCell c i k j i j)) m)
      (forLoop n2 (fun j => forLoop n1 (fun k => accCell c i k j i j)) m') :=
  forLoop_rel n2 (fun j => forLoop n1 (fun k => accCell c i k j i j))
    (fun _ => Mem.Agree S n1 n2) m m' h
    (fun t _ _ _ hu => accRow_rel c t i t hi hS hu)

/-- The forward loop nest leaves two runs with the same memory whatever the scratch
buffers held at the start. -/
theorem forwardNest_rel {α : Type} [Zero α] [Add α] [Mul α] {S : Nat → Nat → Prop}
    {n1 n2 : Nat} (c : Grid α) {m m' : Mem α} (h : Mem.Agree S n1 n2 m m') :
    SameOutcome (Mem.Agree (fun _ _ => True) n1 n2)
      (forLoop n2 (fun i m =>
        andThen (forLoop n1 (fun k => zeroCell i k) m)
          (forLoop n2 (fun j => forLoop n1 (fun k => accCell c i k j i j)))) m)
      (forLoop n2 (fun i m =>
        andThen (forLoop n1 (fun k => zeroCell i k) m)
          (forLoop n2 (fun j => forLoop n1 (fun k => accCell c i k j i j)))) m') := by
  have := forLoop_rel n2 (fun i m =>
        andThen (forLoop n1 (fun k => zeroCell i k) m)
          (forLoop n2 (fun j => forLoop n1 (fun k => accCell c i k j i j))))
    (fun i => Mem.Agree (fun a _ => a < i) n1 n2) m m'
    (h.weaken (fun a _ _ _ hS => absurd hS (Nat.not_lt_zero a)))
    (fun t u u' ht hu =>
      (andThen_rel _ (zeroRow_rel ht hu)
        (fun v v' hv => forwardJ_rel c ht (fun _ _ => Or.inr rfl) hv)).mono
        (fun v v' hv => hv.weaken (by
          intro a b _ _ hS
          by_cases e : a = t
          · exact Or.inr e
          · exact Or.inl (show a < t by omega))))
  exact this.mono (fun v v' hv => hv.weaken (fun a _ ha _ _ => ha))

/-- The zeroing loop of the inverse branch leaves two runs with the same memory. -/
theorem zeroAll_rel {α : Type} [Zero α] {S : Nat → Nat → Prop} {n1 n2 : Nat}
    {m m' : Mem α} (h : Mem.Agree S n1 n2 m m') :
    SameOutcome (Mem.Agree (fun _ _ => True) n1 n2)
      (forLoop n2 (fun i => forLoop n1 (fun k => zeroCell i k)) m)
      (forLoop n2 (fun i => forLoop n1 (fun k => zeroCell i k)) m') := by
  have := forLoop_rel n2 (fun i => forLoop n1 (fun k => zeroCell i k))
    (fun i => Mem.Agree (fun a _ => a < i) n1 n2) m m'
    (h.weaken (fun a _ _ _ hS => absurd hS (Nat.not_lt_zero a)))
    (fun t u u' ht hu => (zeroRow_rel ht hu).mono (fun v v' hv => hv.weaken (by
      intro a b _ _ hS
      by_cases e : a = t
      · exact Or.inr e
      · exact Or.inl (show a < t by omega))))
  exact this.mono (fun v v' hv => hv.weaken (fun a _ ha _ _ => ha))

theorem agree_all_eq {α : Type} [Zero α] {n1 n2 : Nat} {m m' : Mem α}
    (h : Mem.Agree (fun _ _ => True) n1 n2 m m') : m = m' := by
  obtain ⟨hx, hs, hs', hv⟩ := h
  have ht : m.tmp = m'.tmp :=
    Grid.ext_of_shape hs hs' (fun i k hi hk => hv i k hi hk trivial)
  cases m
  cases m'
  simp only [Mem.mk.injEq]
  exact ⟨hx, ht⟩

theorem sameOutcome_refl {α : Type} (r : Except (Mem α) (Mem α)) :
    SameOutcome (fun m m' => m = m') r r := by
  cases r <;> rfl

theorem andThen_same {α : Type} {r r' : Except (Mem α) (Mem α)}
    (f : Mem α → Except (Mem α) (Mem α)) (h : SameOutcome (fun m m' => m = m') r r') :
    SameOutcome (fun m m' => m = m') (andThen r f) (andThen r' f) :=
  andThen_rel f h (fun m m' e => by subst e; exact sameOutcome_refl _)

theorem leave_eq_of_same {α : Type} {r r' : Except (Mem α) (Mem α)}
    (h : SameOutcome (fun m m' => m = m') r r') : leave r = leave r' := by
  cases r with
  | error e =>
    cases r' with
    | error e' => simp only [leave]; exact congrArg _ h
    | ok b' => exact h.elim
  | ok b =>
    cases r' with
    | error e' => exact h.elim
    | ok b' => simp only [leave]; exact congrArg _ (congrArg _ h)

theorem alloc_agree {α : Type} [Zero α] (junk junk' : Nat → Nat → α) (x : Grid α)
    (n1 n2 : Nat) :
    Mem.Agree (fun _ _ => False) n1 n2
      { x := x, tmp := Grid.tabulate n2 n1 junk } { x := x, tmp := Grid.tabulate n2 n1 junk' } :=
  ⟨rfl, Grid.tabulate_hasShape n2 n1 junk, Grid.tabulate_hasShape n2 n1 junk',
    fun _ _ _ _ h => h.elim⟩

/-- The result of `dctiv_row` does not depend on what the fresh scratch buffer holds,
for any array and table, also when the call stops. -/
theorem dctiv_row_junk {α : Type} [Zero α] [Add α] [Mul α] (junk junk' : Nat → Nat → α)
    (x : Grid α) (n1 n2 : Nat) (c : Grid α) :
    dctiv_row (some junk) x n1 n2 c = dctiv_row (some junk') x n1 n2 c := by
  simp only [dctiv_row, alloc2float]
  exact leave_eq_of_same (andThen_same _
    ((forwardNest_rel c (alloc_agree junk junk' x n1 n2)).mono (fun _ _ h => agree_all_eq h)))

/-- The result of `dct_row` does not depend on what the fresh scratch buffer holds,
for any array, table and type, also when the call stops. -/
theorem dct_row_junk {α : Type} [Zero α] [Add α] [Mul α] (junk junk' : Nat → Nat → α)
    (x : Grid α) (n1 n2 : Nat) (c : Grid α) (type : Int) :
    dct_row (some junk) x n1 n2 c type = dct_row (some junk') x n1 n2 c type := by
  simp only [dct_row, alloc2float]
  by_cases ht : type = 0
  · simp only [ht, if_true]
    exact leave_eq_of_same (andThen_same _
      ((forwardNest_rel c (alloc_agree junk junk' x n1 n2)).mono
        (fun _ _ h => agree_all_eq h)))
  · simp only [ht, if_false]
    exact leave_eq_of_same (andThen_same _ (andThen_same _
      ((zeroAll_rel (alloc_agree junk junk' x n1 n2)).mono (fun _ _ h => agree_all_eq h))))

theorem accum_eq_foldl {α : Type} [Zero α] [Add α] (t : Nat → α) (n : Nat) :
    accum t n = (List.range n).foldl (fun acc j => acc + t j) 0 := by
  induction n with
  | zero => rfl
  | succ n ih => rw [accum, ih, List.range_succ, List.foldl_append]; rfl

theorem tmpIs_read {α : Type} [Zero α] {m : Mem α} {x0 : Grid α} {n1 n2 i k : Nat}
    {T : Nat → Nat → α} (h : m.TmpIs x0 n1 n2 T) (hi : i < n2) (hk : k < n1) :
    m.tmp.read i k = some (T i k) := by
  rw [Grid.read_of_shape h.2.1 hi hk, h.2.2 i k hi hk]

/-! ## The claims -/

/-- C1: forward slow-dimension mixer.  For an array `x` with `n2` rows of length `n1`
and an `n2 × n2` table `c`, `dct_row` with `type = 0` returns normally and leaves
`x'[i][k] = Σ_{j < n2} x[j][k] * c[i][j]`, the `x[j][k]` being the values before
the call. -/
theorem dct_row_forward_sum {α : Type} [Semiring α] (junk : Nat → Nat → α)
    (x c : Grid α) (n1 n2 : Nat) (hx : x.HasShape n2 n1) (hc : c.HasShape n2 n2) :
    ∃ x', dct_row (some junk) x n1 n2 c 0 = .ok x' ∧
      ∀ i k, i < n2 → k < n1 →
        x'.read i k = some (∑ j in Finset.range n2, x.val j k * c.val i j) := by
  refine ⟨_, dct_row_forward_eq junk hx hc, ?_⟩
  intro i k hi hk
  rw [Grid.read_of_shape (mixWith_hasShape _ x n1 n2) hi hk, mixWith_val _ x hi hk,
    accum_eq_sum]

theorem dct_row_forward_sum_witness :
    ∃ x', dct_row (some fun _ _ => 7) ([[1, 2], [3, 4]] : Grid Int) 2 2 [[1, 2], [3, 5]] 0
        = .ok x' ∧
      ∀ i k, i < 2 → k < 2 →
        x'.read i k = some (∑ j in Finset.range 2,
          Grid.val ([[1, 2], [3, 4]] : Grid Int) j k * Grid.val [[1, 2], [3, 5]] i j) :=
  dct_row_forward_sum (fun _ _ => 7) [[1, 2], [3, 4]] [[1, 2], [3, 5]] 2 2
    (by decide) (by decide)

/-- C2: inverse slow-dimension mixer.  For an array `x` with `n2` rows of length `n1`
and an `n2 × n2` table `c`, `dct_row` with `type = 1` returns normally and leaves
`x'[i][k] = Σ_{j < n2} x[j][k] * c[j][i]`, the `x[j][k]` being the values before
the call. -/
theorem dct_row_inverse_sum {α : Type} [Semiring α] (junk : Nat → Nat → α)
    (x c : Grid α) (n1 n2 : Nat) (hx : x.HasShape n2 n1) (hc : c.HasShape n2 n2) :
    ∃ x', dct_row (some junk) x n1 n2 c 1 = .ok x' ∧
      ∀ i k, i < n2 → k < n1 →
        x'.read i k = some (∑ j in Finset.range n2, x.val j k * c.val j i) := by
  refine ⟨_, dct_row_inverse_eq junk (by decide) hx hc, ?_⟩
  intro i k hi hk
  rw [Grid.read_of_shape (mixWith_hasShape _ x n1 n2) hi hk, mixWith_val _ x hi hk,
    accum_eq_sum]

theorem dct_row_inverse_sum_witness :
    ∃ x', dct_row (some fun _ _ => 7) ([[1, 2], [3, 4]] : Grid Int) 2 2 [[1, 2], [3, 5]] 1
        = .ok x' ∧
      ∀ i k, i < 2 → k < 2 →
        x'.read i k = some (∑ j in Finset.range 2,
          Grid.val ([[1, 2], [3, 4]] : Grid Int) j k * Grid.val [[1, 2], [3, 5]] j i) :=
  dct_row_inverse_sum (fun _ _ => 7) [[1, 2], [3, 4]] [[1, 2], [3, 5]] 2 2
    (by decide) (by decide)

/-- C3: DCT-IV slow-dimension mixer.  For an array `x` with `n2` rows of length `n1`
and an `n2 × n2` table `c`, `dctiv_row` returns normally and leaves
`x'[i][k] = Σ_{j < n2} x[j][k] * c[i][j]` (values of `x` before the call); the
function has no type flag, hence no transposed branch. -/
theorem dctiv_row_sum {α : Type} [Semiring α] (junk : Nat → Nat → α)
    (x c : Grid α) (n1 n2 : Nat) (hx : x.HasShape n2 n1) (hc : c.HasShape n2 n2) :
    ∃ x', dctiv_row (some junk) x n1 n2 c = .ok x' ∧
      ∀ i k, i < n2 → k < n1 →
        x'.read i k = some (∑ j in Finset.range n2, x.val j k * c.val i j) := by
  refine ⟨_, dctiv_row_eq junk hx hc, ?_⟩
  intro i k hi hk
  rw [Grid.read_of_shape (mixWith_hasShape _ x n1 n2) hi hk, mixWith_val _ x hi hk,
    accum_eq_sum]

theorem dctiv_row_sum_witness :
    ∃ x', dctiv_row (some fun _ _ => 7) ([[1, 2], [3, 4]] : Grid Int) 2 2 [[1, 2], [3, 5]]
        = .ok x' ∧
      ∀ i k, i < 2 → k < 2 →
        x'.read i k = some (∑ j in Finset.range 2,
          Grid.val ([[1, 2], [3, 4]] : Grid Int) j k * Grid.val [[1, 2], [3, 5]] i j) :=
  dctiv_row_sum (fun _ _ => 7) [[1, 2], [3, 4]] [[1, 2], [3, 5]] 2 2
    (by decide) (by decide)

/-- C4: `dct_2` is the fast pass followed by the mixer.  For every one-dimensional
primitive `dct`, every `x` with `n2` rows, all tables and every type flag (and whatever
the allocator does), `dct_2` gives what `dct_row` gives with `c2` and the same `type`
on `x` with each row `x[i]` replaced by `dct(x[i], n1, c1, type)`. -/
theorem dct_2_eq_dct_row {α : Type} [Zero α] [Add α] [Mul α] (heap : Option (Nat → Nat → α))
    (dct : List α → Nat → Grid α → Int → List α)
    (x : Grid α) (n1 n2 : Nat) (c1 c2 : Grid α) (type : Int) (hx : x.length = n2) :
    dct_2 heap dct x n1 n2 c1 c2 type
      = dct_row heap (x.map fun row => dct row n1 c1 type) n1 n2 c2 type := by
  subst hx
  simp only [dct_2, fastPass_eq]

theorem dct_2_eq_dct_row_witness :
    dct_2 (some fun _ _ => 7) (fun row _ _ t => if t = 0 then row.reverse else row)
        ([[1, 2], [3, 4]] : Grid Int) 2 2 [] [[1, 2], [3, 5]] 0
      = dct_row (some fun _ _ => 7)
          (([[1, 2], [3, 4]] : Grid Int).map fun row =>
            (fun row (_ : Nat) (_ : Grid Int) (t : Int) => if t = 0 then row.reverse else row)
              row 2 [] 0)
          2 2 [[1, 2], [3, 5]] 0 :=
  dct_2_eq_dct_row _ _ _ 2 2 _ _ 0 (by decide)

/-- C5: `dctiv_2` is the DCT-IV fast pass followed by the IV mixer.  For every
one-dimensional primitive `dctiv`, every `x` with `n2` rows and all tables, `dctiv_2`
gives what `dctiv_row` gives with `c2` on `x` with each row `x[i]` replaced by
`dctiv(x[i], n1, c1)`. -/
theorem dctiv_2_eq_dctiv_row {α : Type} [Zero α] [Add α] [Mul α]
    (heap : Option (Nat → Nat → α)) (dctiv : List α → Nat → Grid α → List α)
    (x : Grid α) (n1 n2 : Nat) (c1 c2 : Grid α) (hx : x.length = n2) :
    dctiv_2 heap dctiv x n1 n2 c1 c2
      = dctiv_row heap (x.map fun row => dctiv row n1 c1) n1 n2 c2 := by
  subst hx
  simp only [dctiv_2, fastPass_eq]

theorem dctiv_2_eq_dctiv_row_witness :
    dctiv_2 (some fun _ _ => 7) (fun row _ _ => row.reverse)
        ([[1, 2], [3, 4]] : Grid Int) 2 2 [] [[1, 2], [3, 5]]
      = dctiv_row (some fun _ _ => 7)
          (([[1, 2], [3, 4]] : Grid Int).map fun row =>
            (fun row (_ : Nat) (_ : Grid Int) => row.reverse) row 2 [])
          2 2 [[1, 2], [3, 5]] :=
  dctiv_2_eq_dctiv_row _ _ _ 2 2 _ _ (by decide)

/-- C6: round trip of `dct_2`.  For `x` with `n2` rows of length `n1` and a table pair
`(c1, c2)` of an orthogonal basis (`c2` is `n2 × n2` with `c2ᵀ·c2` the identity; the
one-dimensional primitive with `c1` keeps the row length, its type-1 call is linear on
rows and undoes its type-0 call), `dct_2` with type 0 followed by `dct_2` with type 1
returns the original `x` (exact arithmetic). -/
theorem dct_2_round_trip {α : Type} [CommRing α] (junk junk' : Nat → Nat → α)
    (dct : List α → Nat → Grid α → Int → List α)
    (x : Grid α) (n1 n2 : Nat) (c1 c2 : Grid α)
    (hx : x.HasShape n2 n1) (hc : c2.HasShape n2 n2)
    (horth : ∀ i, i < n2 → ∀ m, m < n2 →
      ∑ j in Finset.range n2, c2.val j i * c2.val j m = if i = m then 1 else 0)
    (hlen : ∀ r : List α, r.length = n1 → (dct r n1 c1 0).length = n1)
    (hlin : LinearOnRows (fun r => dct r n1 c1 1) n1)
    (hundo : ∀ r : List α, r.length = n1 → dct (dct r n1 c1 0) n1 c1 1 = r) :
    ∃ X, dct_2 (some junk) dct x n1 n2 c1 c2 0 = .ok X ∧
      dct_2 (some junk') dct X n1 n2 c1 c2 1 = .ok x := by
  refine ⟨_, dct_2_ok junk dct c1 0 hx hc hlen, ?_⟩
  rw [dct_2_ok junk' dct c1 1 (mixWith_hasShape _ _ n1 n2) hc hlin.1,
    map_mixWith hlin _ (map_hasShape hlen hx), map_undo hx hundo, mixWith_mixWith]
  congr 1
  conv_rhs => rw [← mixWith_one hx]
  apply mixWith_congr
  intro i m hi hm
  have e : (1 : Int) = 0 ↔ False := by decide
  simp only [e, if_false]
  rw [← horth i hi m hm]
  exact Finset.sum_congr rfl (fun j _ => mul_comm _ _)

theorem dct_2_round_trip_witness :
    ∃ X, dct_2 (some fun _ _ => 7) (fun row _ _ _ => row.reverse)
        ([[1, 2], [3, 4]] : Grid Int) 2 2 [] [[0, -1], [1, 0]] 0 = .ok X ∧
      dct_2 (some fun _ _ => 9) (fun row _ _ _ => row.reverse)
        X 2 2 [] [[0, -1], [1, 0]] 1 = .ok [[1, 2], [3, 4]] :=
  dct_2_round_trip (fun _ _ => 7) (fun _ _ => 9) (fun row _ _ _ => row.reverse)
    [[1, 2], [3, 4]] 2 2 [] [[0, -1], [1, 0]] (by decide) (by decide) (by decide)
    (fun r h => by simp [h]) (linearOnRows_reverse 2) (fun r _ => by simp)

/-- C7: DCT-IV is its own inverse through the single code path.  For `x` with `n2` rows
of length `n1`, when `c2` is `n2 × n2` with `c2·c2` the identity and the primitive
`dctiv` with `c1` is a linear involution on rows of length `n1`, applying `dctiv_2`
twice with the same tables returns the original `x` (exact arithmetic). -/
theorem dctiv_2_twice {α : Type} [CommRing α] (junk junk' : Nat → Nat → α)
    (dctiv : List α → Nat → Grid α → List α)
    (x : Grid α) (n1 n2 : Nat) (c1 c2 : Grid α)
    (hx : x.HasShape n2 n1) (hc : c2.HasShape n2 n2)
    (hsq : ∀ i, i < n2 → ∀ m, m < n2 →
      ∑ j in Finset.range n2, c2.val i j * c2.val j m = if i = m then 1 else 0)
    (hlin : LinearOnRows (fun r => dctiv r n1 c1) n1)
    (hinv : ∀ r : List α, r.length = n1 → dctiv (dctiv r n1 c1) n1 c1 = r) :
    ∃ X, dctiv_2 (some junk) dctiv x n1 n2 c1 c2 = .ok X ∧
      dctiv_2 (some junk') dctiv X n1 n2 c1 c2 = .ok x := by
  refine ⟨_, dctiv_2_ok junk dctiv c1 hx hc hlin.1, ?_⟩
  rw [dctiv_2_ok junk' dctiv c1 (mixWith_hasShape _ _ n1 n2) hc hlin.1,
    map_mixWith hlin _ (map_hasShape hlin.1 hx), map_undo hx hinv, mixWith_mixWith]
  congr 1
  conv_rhs => rw [← mixWith_one hx]
  apply mixWith_congr
  intro i m hi hm
  show (∑ j in Finset.range n2, c2.val j m * c2.val i j) = _
  rw [← hsq i hi m hm]
  exact Finset.sum_congr rfl (fun j _ => mul_comm _ _)

theorem dctiv_2_twice_witness :
    ∃ X, dctiv_2 (some fun _ _ => 7) (fun row _ _ => row.reverse)
        ([[1, 2], [3, 4]] : Grid Int) 2 2 [] [[0, 1], [1, 0]] = .ok X ∧
      dctiv_2 (some fun _ _ => 9) (fun row _ _ => row.reverse)
        X 2 2 [] [[0, 1], [1, 0]] = .ok [[1, 2], [3, 4]] :=
  dctiv_2_twice (fun _ _ => 7) (fun _ _ => 9) (fun row _ _ => row.reverse)
    [[1, 2], [3, 4]] 2 2 [] [[0, 1], [1, 0]] (by decide) (by decide) (by decide)
    (linearOnRows_reverse 2) (fun r _ => by simp)

/-- C8: transpose relation.  For `x` with `n2` rows of length `n1`, an `n2 × n2` table
`c2` and the table `c2T` with `c2T[i][j] = c2[j][i]`, the inverse mixer with `c2` and
the forward mixer with `c2T` both return normally and leave the same array. -/
theorem dct_row_inverse_eq_forward_transpose {α : Type} [Zero α] [Add α] [Mul α]
    (junk junk' : Nat → Nat → α) (x c2 c2T : Grid α) (n1 n2 : Nat)
    (hx : x.HasShape n2 n1) (hc : c2.HasShape n2 n2) (hcT : c2T.HasShape n2 n2)
    (ht : ∀ i, i < n2 → ∀ j, j < n2 → c2T.val i j = c2.val j i) :
    ∃ x', dct_row (some junk) x n1 n2 c2 1 = .ok x' ∧
      dct_row (some junk') x n1 n2 c2T 0 = .ok x' := by
  refine ⟨_, dct_row_inverse_eq junk (by decide) hx hc, ?_⟩
  rw [dct_row_forward_eq junk' hx hcT]
  congr 1
  exact mixWith_congr x n1 n2 (fun i j hi hj => ht i hi j hj)

theorem dct_row_inverse_eq_forward_transpose_witness :
    ∃ x', dct_row (some fun _ _ => 7) ([[1, 2], [3, 4]] : Grid Int) 2 2 [[1, 2], [3, 5]] 1
        = .ok x' ∧
      dct_row (some fun _ _ => 9) ([[1, 2], [3, 4]] : Grid Int) 2 2 [[1, 3], [2, 5]] 0
        = .ok x' :=
  dct_row_inverse_eq_forward_transpose (fun _ _ => 7) (fun _ _ => 9)
    [[1, 2], [3, 4]] [[1, 2], [3, 5]] [[1, 3], [2, 5]] 2 2
    (by decide) (by decide) (by decide) (by decide)

/-- C9: linearity of `dct_2`.  For scalars `a`, `b`, arrays `x`, `y` with `n2` rows of
length `n1`, an `n2 × n2` table `c2`, either type, and the one-dimensional primitive a
linear map on rows of length `n1`: the three calls return normally and
`dct_2(a·x + b·y) = a·dct_2(x) + b·dct_2(y)` sample by sample (exact arithmetic). -/
theorem dct_2_linear {α : Type} [CommRing α] (junk junk' junk'' : Nat → Nat → α)
    (dct : List α → Nat → Grid α → Int → List α)
    (a b : α) (x y : Grid α) (n1 n2 : Nat) (c1 c2 : Grid α) (type : Int)
    (hx : x.HasShape n2 n1) (hy : y.HasShape n2 n1) (hc : c2.HasShape n2 n2)
    (hlin : LinearOnRows (fun r => dct r n1 c1 type) n1) :
    ∃ X Y, dct_2 (some junk) dct x n1 n2 c1 c2 type = .ok X ∧
      dct_2 (some junk') dct y n1 n2 c1 c2 type = .ok Y ∧
      dct_2 (some junk'') dct (Grid.lin a x b y) n1 n2 c1 c2 type
        = .ok (Grid.lin a X b Y) := by
  refine ⟨_, _, dct_2_ok junk dct c1 type hx hc hlin.1,
    dct_2_ok junk' dct c1 type hy hc hlin.1, ?_⟩
  rw [dct_2_ok junk'' dct c1 type (lin_hasShape a b hx hy) hc hlin.1,
    map_lin hlin a b hx hy,
    mixWith_lin _ a b (map_hasShape hlin.1 hx) (map_hasShape hlin.1 hy)]

theorem dct_2_linear_witness :
    ∃ X Y, dct_2 (some fun _ _ => 7) (fun row _ _ _ => row.reverse)
        ([[1, 2], [3, 4]] : Grid Int) 2 2 [] [[1, 2], [3, 5]] 1 = .ok X ∧
      dct_2 (some fun _ _ => 8) (fun row _ _ _ => row.reverse)
        ([[0, 1], [-1, 2]] : Grid Int) 2 2 [] [[1, 2], [3, 5]] 1 = .ok Y ∧
      dct_2 (some fun _ _ => 9) (fun row _ _ _ => row.reverse)
        (Grid.lin 2 ([[1, 2], [3, 4]] : Grid Int) 3 [[0, 1], [-1, 2]]) 2 2 []
        [[1, 2], [3, 5]] 1 = .ok (Grid.lin 2 X 3 Y) :=
  dct_2_linear (fun _ _ => 7) (fun _ _ => 8) (fun _ _ => 9) (fun row _ _ _ => row.reverse)
    2 3 [[1, 2], [3, 4]] [[0, 1], [-1, 2]] 2 2 [] [[1, 2], [3, 5]] 1
    (by decide) (by decide) (by decide) (linearOnRows_reverse 2)

/-- C10: shape preservation.  For a valid call (`x` has `n2` rows of length `n1`, `c2`
is `n2 × n2`, the one-dimensional primitives keep the length of a row of length `n1`)
each of `dct_2`, `dctiv_2`, `dct_row` and `dctiv_row` returns normally with an array
of exactly `n2` rows, each of length `n1`. -/
theorem shape_preserved {α : Type} [Zero α] [Add α] [Mul α] (junk : Nat → Nat → α)
    (dct : List α → Nat → Grid α → Int → List α) (dctiv : List α → Nat → Grid α → List α)
    (x : Grid α) (n1 n2 : Nat) (c1 c2 : Grid α) (type : Int)
    (hx : x.HasShape n2 n1) (hc : c2.HasShape n2 n2)
    (hdct : ∀ r : List α, r.length = n1 → (dct r n1 c1 type).length = n1)
    (hdctiv : ∀ r : List α, r.length = n1 → (dctiv r n1 c1).length = n1) :
    (∃ x', dct_2 (some junk) dct x n1 n2 c1 c2 type = .ok x' ∧ x'.HasShape n2 n1) ∧
    (∃ x', dctiv_2 (some junk) dctiv x n1 n2 c1 c2 = .ok x' ∧ x'.HasShape n2 n1) ∧
    (∃ x', dct_row (some junk) x n1 n2 c2 type = .ok x' ∧ x'.HasShape n2 n1) ∧
    (∃ x', dctiv_row (some junk) x n1 n2 c2 = .ok x' ∧ x'.HasShape n2 n1) := by
  exact ⟨⟨_, dct_2_ok junk dct c1 type hx hc hdct, mixWith_hasShape _ _ n1 n2⟩,
    ⟨_, dctiv_2_ok junk dctiv c1 hx hc hdctiv, mixWith_hasShape _ _ n1 n2⟩,
    ⟨_, dct_row_eq junk type hx hc, mixWith_hasShape _ _ n1 n2⟩,
    ⟨_, dctiv_row_eq junk hx hc, mixWith_hasShape _ _ n1 n2⟩⟩

theorem shape_preserved_witness :
    (∃ x', dct_2 (some fun _ _ => 7) (fun row _ _ _ => row.reverse)
        ([[1, 2], [3, 4]] : Grid Int) 2 2 [] [[1, 2], [3, 5]] 1 = .ok x' ∧ x'.HasShape 2 2) ∧
    (∃ x', dctiv_2 (some fun _ _ => 7) (fun row _ _ => row.reverse)
        ([[1, 2], [3, 4]] : Grid Int) 2 2 [] [[1, 2], [3, 5]] = .ok x' ∧ x'.HasShape 2 2) ∧
    (∃ x', dct_row (some fun _ _ => 7)
        ([[1, 2], [3, 4]] : Grid Int) 2 2 [[1, 2], [3, 5]] 1 = .ok x' ∧ x'.HasShape 2 2) ∧
    (∃ x', dctiv_row (some fun _ _ => 7)
        ([[1, 2], [3, 4]] : Grid Int) 2 2 [[1, 2], [3, 5]] = .ok x' ∧ x'.HasShape 2 2) :=
  shape_preserved (fun _ _ => 7) (fun row _ _ _ => row.reverse) (fun row _ _ => row.reverse)
    [[1, 2], [3, 4]] 2 2 [] [[1, 2], [3, 5]] 1 (by decide) (by decide)
    (fun r h => by simp [h]) (fun r h => by simp [h])

/-- C11: row independence of the fast pass.  For every permutation `p` of the `n2` row
indices and every `x` with `n2` rows, the fast-dimension loop of `dct_2` (and that of
`dctiv_2`) run on `x` with its rows permuted by `p` returns the fast-pass output of `x`
with its rows permuted by the same `p`; output row `i` is the primitive applied to
input row `i` alone. -/
theorem fast_pass_row_independent {α : Type} {n2 : Nat} (p : Equiv.Perm (Fin n2))
    (dct : List α → Nat → Grid α → Int → List α) (dctiv : List α → Nat → Grid α → List α)
    (x : Grid α) (n1 : Nat) (c1 : Grid α) (type : Int) (hx : x.length = n2) :
    (∃ y, forLoop n2 (fun i => rowCall (fun row => dct row n1 c1 type) i) x = .ok y ∧
      forLoop n2 (fun i => rowCall (fun row => dct row n1 c1 type) i) (permuteRows p x)
        = .ok (permuteRows p y) ∧
      ∀ i, i < n2 → y[i]? = (x[i]?).map fun row => dct row n1 c1 type) ∧
    (∃ y, forLoop n2 (fun i => rowCall (fun row => dctiv row n1 c1) i) x = .ok y ∧
      forLoop n2 (fun i => rowCall (fun row => dctiv row n1 c1) i) (permuteRows p x)
        = .ok (permuteRows p y) ∧
      ∀ i, i < n2 → y[i]? = (x[i]?).map fun row => dctiv row n1 c1) :=
  ⟨⟨_, fastPass_permute p (fun row => dct row n1 c1 type) x hx⟩,
    ⟨_, fastPass_permute p (fun row => dctiv row n1 c1) x hx⟩⟩

theorem fast_pass_row_independent_witness :
    (∃ y, forLoop 2 (fun i => rowCall (fun row => (fun (r : List Int) (_ : Nat)
          (_ : Grid Int) (_ : Int) => r.reverse) row 2 [] 0) i) [[1, 2], [3, 4]] = .ok y ∧
      forLoop 2 (fun i => rowCall (fun row => (fun (r : List Int) (_ : Nat)
          (_ : Grid Int) (_ : Int) => r.reverse) row 2 [] 0) i)
          (permuteRows (Equiv.swap (0 : Fin 2) 1) [[1, 2], [3, 4]])
        = .ok (permuteRows (Equiv.swap (0 : Fin 2) 1) y) ∧
      ∀ i, i < 2 → y[i]? = (([[1, 2], [3, 4]] : Grid Int)[i]?).map fun row =>
        (fun (r : List Int) (_ : Nat) (_ : Grid Int) (_ : Int) => r.reverse) row 2 [] 0) ∧
    (∃ y, forLoop 2 (fun i => rowCall (fun row => (fun (r : List Int) (_ : Nat)
          (_ : Grid Int) => r.reverse) row 2 []) i) [[1, 2], [3, 4]] = .ok y ∧
      forLoop 2 (fun i => rowCall (fun row => (fun (r : List Int) (_ : Nat)
          (_ : Grid Int) => r.reverse) row 2 []) i)
          (permuteRows (Equiv.swap (0 : Fin 2) 1) [[1, 2], [3, 4]])
        = .ok (permuteRows (Equiv.swap (0 : Fin 2) 1) y) ∧
      ∀ i, i < 2 → y[i]? = (([[1, 2], [3, 4]] : Grid Int)[i]?).map fun row =>
        (fun (r : List Int) (_ : Nat) (_ : Grid Int) => r.reverse) row 2 []) :=
  fast_pass_row_independent (Equiv.swap (0 : Fin 2) 1) (fun r _ _ _ => r.reverse)
    (fun r _ _ => r.reverse) [[1, 2], [3, 4]] 2 [] 0 (by decide)

/-- C12: an un-normalised table scales the round trip by `n2`.  For every `n2 × n2`
table `c` with `cᵀ·c = n2·I` and every `x` with `n2` rows of length `n1`, the forward
mixer followed by the inverse mixer with the same `c` returns `n2·x` (exact
arithmetic). -/
theorem dct_row_round_trip_scaled {α : Type} [Semiring α] (junk junk' : Nat → Nat → α)
    (x c : Grid α) (n1 n2 : Nat) (hx : x.HasShape n2 n1) (hc : c.HasShape n2 n2)
    (horth : ∀ i, i < n2 → ∀ m, m < n2 →
      ∑ j in Finset.range n2, c.val j i * c.val j m = if i = m then (n2 : α) else 0) :
    ∃ X, dct_row (some junk) x n1 n2 c 0 = .ok X ∧
      dct_row (some junk') X n1 n2 c 1 = .ok (Grid.scale (n2 : α) x) := by
  refine ⟨_, dct_row_forward_eq junk hx hc, ?_⟩
  rw [dct_row_inverse_eq junk' (by decide) (mixWith_hasShape _ _ n1 n2) hc, mixWith_mixWith,
    ← mixWith_diag (n2 : α) hx]
  congr 1
  exact mixWith_congr x n1 n2 (fun i m hi hm => horth m hm i hi)

theorem dct_row_round_trip_scaled_witness :
    (∃ X, dct_row (some fun _ _ => 7) ([[1], [0]] : Grid Int) 1 2 [[1, 1], [1, -1]] 0 = .ok X ∧
      dct_row (some fun _ _ => 9) X 1 2 [[1, 1], [1, -1]] 1
        = .ok (Grid.scale ((2 : Nat) : Int) [[1], [0]])) ∧
    dct_row (some fun _ _ => 7) ([[1], [0]] : Grid Int) 1 2 [[1, 1], [1, -1]] 0
      = .ok [[1], [1]] ∧
    dct_row (some fun _ _ => 9) ([[1], [1]] : Grid Int) 1 2 [[1, 1], [1, -1]] 1
      = .ok [[2], [0]] ∧
    Grid.scale ((2 : Nat) : Int) [[1], [0]] = [[2], [0]] :=
  ⟨dct_row_round_trip_scaled (fun _ _ => 7) (fun _ _ => 9) [[1], [0]] [[1, 1], [1, -1]] 1 2
    (by decide) (by decide) (by decide), by decide, by decide, by decide⟩

/-- C13: boundary `n2 = 1`.  For every `n1`, every single-row `x` and every `1 × 1`
table `c`, `dct_row` with type 0, `dct_row` with type 1 and `dctiv_row` each return
normally with `x'[0][k] = x[0][k] * c[0][0]` for every `k < n1`: the output is the
input scaled by `c[0][0]`. -/
theorem single_row_scaled {α : Type} [AddZeroClass α] [Mul α] (junk : Nat → Nat → α)
    (x c : Grid α) (n1 : Nat) (hx : x.HasShape 1 n1) (hc : c.HasShape 1 1) :
    (dct_row (some junk) x n1 1 c 0 = .ok (Grid.scale (c.val 0 0) x) ∧
      dct_row (some junk) x n1 1 c 1 = .ok (Grid.scale (c.val 0 0) x) ∧
      dctiv_row (some junk) x n1 1 c = .ok (Grid.scale (c.val 0 0) x)) ∧
    ∀ k, k < n1 → (Grid.scale (c.val 0 0) x).read 0 k = some (x.val 0 k * c.val 0 0) := by
  refine ⟨⟨?_, ?_, ?_⟩, ?_⟩
  · rw [dct_row_forward_eq junk hx hc, mixWith_single _ hx]
  · rw [dct_row_inverse_eq junk (by decide) hx hc, mixWith_single _ hx]
  · rw [dctiv_row_eq junk hx hc, mixWith_single _ hx]
  · intro k hk
    rw [Grid.read_of_shape (scale_hasShape _ hx) (by decide) hk,
      scale_val _ hx (by decide) hk]

theorem single_row_scaled_witness :
    (dct_row (some fun _ _ => 7) ([[1, 2, 3]] : Grid Int) 3 1 [[5]] 0
        = .ok (Grid.scale (Grid.val ([[5]] : Grid Int) 0 0) [[1, 2, 3]]) ∧
      dct_row (some fun _ _ => 7) ([[1, 2, 3]] : Grid Int) 3 1 [[5]] 1
        = .ok (Grid.scale (Grid.val ([[5]] : Grid Int) 0 0) [[1, 2, 3]]) ∧
      dctiv_row (some fun _ _ => 7) ([[1, 2, 3]] : Grid Int) 3 1 [[5]]
        = .ok (Grid.scale (Grid.val ([[5]] : Grid Int) 0 0) [[1, 2, 3]])) ∧
    ∀ k, k < 3 → (Grid.scale (Grid.val ([[5]] : Grid Int) 0 0) [[1, 2, 3]]).read 0 k
        = some (Grid.val ([[1, 2, 3]] : Grid Int) 0 k * Grid.val ([[5]] : Grid Int) 0 0) :=
  single_row_scaled (fun _ _ => 7) [[1, 2, 3]] [[5]] 3 (by decide) (by decide)

/-- C14 (as stated, refuted): with a failing allocation, `dct_2` and `dctiv_2` stop
with the caller's array already rewritten by the fast pass, not with the values it had
before the call. -/
theorem alloc_failure_not_atomic :
    dct_2 none (fun r _ _ _ => r.reverse) ([[1, 2], [3, 4]] : Grid Int) 2 2 []
        [[1, 0], [0, 1]] 0 = .error [[2, 1], [4, 3]] ∧
    dct_2 none (fun r _ _ _ => r.reverse) ([[1, 2], [3, 4]] : Grid Int) 2 2 []
        [[1, 0], [0, 1]] 0 ≠ .error [[1, 2], [3, 4]] ∧
    dctiv_2 none (fun r _ _ => r.reverse) ([[1, 2], [3, 4]] : Grid Int) 2 2 []
        [[1, 0], [0, 1]] = .error [[2, 1], [4, 3]] ∧
    dctiv_2 none (fun r _ _ => r.reverse) ([[1, 2], [3, 4]] : Grid Int) 2 2 []
        [[1, 0], [0, 1]] ≠ .error [[1, 2], [3, 4]] := by
  decide

/-- C14 (amended): when the allocation of the scratch buffer fails, the mixers
`dct_row` and `dctiv_row` stop before touching the caller's array, which holds exactly
the values it had when the mixer was entered; in a call of `dct_2` or `dctiv_2` on an
array of `n2` rows the fast pass has run before, so the array holds the fast-pass
output (each row replaced by its one-dimensional transform). -/
theorem alloc_failure_state {α : Type} [Zero α] [Add α] [Mul α]
    (dct : List α → Nat → Grid α → Int → List α) (dctiv : List α → Nat → Grid α → List α)
    (x : Grid α) (n1 n2 : Nat) (c1 c2 : Grid α) (type : Int) (hx : x.length = n2) :
    dct_row none x n1 n2 c2 type = .error x ∧
    dctiv_row none x n1 n2 c2 = .error x ∧
    dct_2 none dct x n1 n2 c1 c2 type = .error (x.map fun row => dct row n1 c1 type) ∧
    dctiv_2 none dctiv x n1 n2 c1 c2 = .error (x.map fun row => dctiv row n1 c1) := by
  subst hx
  refine ⟨rfl, rfl, ?_, ?_⟩
  · simp only [dct_2, fastPass_eq]
    rfl
  · simp only [dctiv_2, fastPass_eq]
    rfl

theorem alloc_failure_state_witness :
    dct_row none ([[1, 2], [3, 4]] : Grid Int) 2 2 [[1, 0], [0, 1]] 0
      = .error [[1, 2], [3, 4]] ∧
    dctiv_row none ([[1, 2], [3, 4]] : Grid Int) 2 2 [[1, 0], [0, 1]]
      = .error [[1, 2], [3, 4]] ∧
    dct_2 none (fun r _ _ _ => r.reverse) ([[1, 2], [3, 4]] : Grid Int) 2 2 []
        [[1, 0], [0, 1]] 0
      = .error (([[1, 2], [3, 4]] : Grid Int).map fun row =>
          (fun (r : List Int) (_ : Nat) (_ : Grid Int) (_ : Int) => r.reverse) row 2 [] 0) ∧
    dctiv_2 none (fun r _ _ => r.reverse) ([[1, 2], [3, 4]] : Grid Int) 2 2 []
        [[1, 0], [0, 1]]
      = .error (([[1, 2], [3, 4]] : Grid Int).map fun row =>
          (fun (r : List Int) (_ : Nat) (_ : Grid Int) => r.reverse) row 2 []) :=
  alloc_failure_state (fun r _ _ _ => r.reverse) (fun r _ _ => r.reverse)
    [[1, 2], [3, 4]] 2 2 [] [[1, 0], [0, 1]] 0 (by decide)

/-- C15: no stale data.  The fresh scratch buffer holds arbitrary values (`junk`,
`junk'`).  (1) For every array, table and type the result of `dct_row` and of
`dctiv_row` is the same for any two initial contents of the scratch buffer.  (2) For a
valid call the accumulation phase of `dct_row` (either branch) ends with the caller's
array untouched and with every scratch element `tmp[i][k]`, `i < n2`, `k < n1`, equal
to the accumulation started from zero (no initial scratch value enters it), and the
call returns the array in which every `x[i][k]`, `i < n2`, `k < n1`, has been
overwritten by that `tmp[i][k]`.  (3) The same holds for `dctiv_row`. -/
theorem scratch_content_irrelevant {α : Type} [Zero α] [Add α] [Mul α]
    (junk junk' : Nat → Nat → α) (x c : Grid α) (n1 n2 : Nat) (type : Int)
    (hx : x.HasShape n2 n1) (hc : c.HasShape n2 n2) :
    (∀ (y d : Grid α) (t : Int),
      dct_row (some junk) y n1 n2 d t = dct_row (some junk') y n1 n2 d t ∧
      dctiv_row (some junk) y n1 n2 d = dctiv_row (some junk') y n1 n2 d) ∧
    (∃ tmp0 m x', alloc2float (some junk) n1 n2 = some tmp0 ∧
      (if type = 0 then
          forLoop n2 (fun i m =>
            andThen (forLoop n1 (fun k => zeroCell i k) m)
              (forLoop n2 (fun j => forLoop n1 (fun k => accCell c i k j i j))))
            { x := x, tmp := tmp0 }
        else
          andThen
            (forLoop n2 (fun i => forLoop n1 (fun k => zeroCell i k)) { x := x, tmp := tmp0 })
            (forLoop n2 (fun j => forLoop n2 (fun i => forLoop n1 (fun k => accCell c i k j j i)))))
        = .ok m ∧
      m.x = x ∧
      dct_row (some junk) x n1 n2 c type = .ok x' ∧
      dct_row (some junk') x n1 n2 c type = .ok x' ∧
      x'.HasShape n2 n1 ∧
      ∀ i, i < n2 → ∀ k, k < n1 →
        m.tmp.read i k = some ((List.range n2).foldl
          (fun acc j => acc + x.val j k * (if type = 0 then c.val i j else c.val j i)) 0) ∧
        x'.read i k = m.tmp.read i k) ∧
    (∃ tmp0 m x', alloc2float (some junk) n1 n2 = some tmp0 ∧
      forLoop n2 (fun i m =>
          andThen (forLoop n1 (fun k => zeroCell i k) m)
            (forLoop n2 (fun j => forLoop n1 (fun k => accCell c i k j i j))))
          { x := x, tmp := tmp0 }
        = .ok m ∧
      m.x = x ∧
      dctiv_row (some junk) x n1 n2 c = .ok x' ∧
      dctiv_row (some junk') x n1 n2 c = .ok x' ∧
      x'.HasShape n2 n1 ∧
      ∀ i, i < n2 → ∀ k, k < n1 →
        m.tmp.read i k = some ((List.range n2).foldl
          (fun acc j => acc + x.val j k * c.val i j) 0) ∧
        x'.read i k = m.tmp.read i k) := by
  refine ⟨fun y d t => ⟨dct_row_junk junk junk' y n1 n2 d t,
    dctiv_row_junk junk junk' y n1 n2 d⟩, ?_, ?_⟩
  · by_cases ht : type = 0
    · obtain ⟨m, hl, hm⟩ := forwardNest_spec hx hc (alloc_tmpIs junk x n1 n2)
      refine ⟨_, m, _, rfl, by simp only [ht, if_true]; exact hl, hm.1,
        dct_row_eq junk type hx hc, dct_row_eq junk' type hx hc,
        mixWith_hasShape _ _ n1 n2, ?_⟩
      intro i hi k hk
      rw [tmpIs_read hm hi hk, Grid.read_of_shape (mixWith_hasShape _ x n1 n2) hi hk,
        mixWith_val _ x hi hk, ← accum_eq_foldl]
      simp only [ht, if_true, and_self]
    · obtain ⟨m1, hl1, hm1⟩ := zeroAll_spec (alloc_tmpIs junk x n1 n2)
      obtain ⟨m, hl, hm⟩ := inverseNest_spec hx hc hm1
      refine ⟨_, m, _, rfl, by simp only [ht, if_false, hl1, andThen_ok]; exact hl, hm.1,
        dct_row_eq junk type hx hc, dct_row_eq junk' type hx hc,
        mixWith_hasShape _ _ n1 n2, ?_⟩
      intro i hi k hk
      rw [tmpIs_read hm hi hk, Grid.read_of_shape (mixWith_hasShape _ x n1 n2) hi hk,
        mixWith_val _ x hi hk, ← accum_eq_foldl]
      simp only [ht, if_false, and_self]
  · obtain ⟨m, hl, hm⟩ := forwardNest_spec hx hc (alloc_tmpIs junk x n1 n2)
    refine ⟨_, m, _, rfl, hl, hm.1, dctiv_row_eq junk hx hc, dctiv_row_eq junk' hx hc,
      mixWith_hasShape _ _ n1 n2, ?_⟩
    intro i hi k hk
    rw [tmpIs_read hm hi hk, Grid.read_of_shape (mixWith_hasShape _ x n1 n2) hi hk,
      mixWith_val _ x hi hk, ← accum_eq_foldl]
    exact ⟨rfl, rfl⟩

theorem scratch_content_irrelevant_witness :
    ((∀ (y d : Grid Sym) (t : Int),
      dct_row (some fun _ _ => Sym.var 99) y 1 2 d t
        = dct_row (some fun _ _ => Sym.var 98) y 1 2 d t ∧
      dctiv_row (some fun _ _ => Sym.var 99) y 1 2 d
        = dctiv_row (some fun _ _ => Sym.var 98) y 1 2 d) ∧
    (∃ tmp0 m x', alloc2float (some fun _ _ => Sym.var 99) 1 2 = some tmp0 ∧
      (if (1 : Int) = 0 then
          forLoop 2 (fun i m =>
            andThen (forLoop 1 (fun k => zeroCell i k) m)
              (forLoop 2 (fun j => forLoop 1 (fun k => accCell ([[Sym.var 10, Sym.var 11], [Sym.var 12, Sym.var 13]] : Grid Sym) i k j i j))))
            { x := ([[Sym.var 0], [Sym.var 1]] : Grid Sym), tmp := tmp0 }
        else
          andThen
            (forLoop 2 (fun i => forLoop 1 (fun k => zeroCell i k))
              { x := ([[Sym.var 0], [Sym.var 1]] : Grid Sym), tmp := tmp0 })
            (forLoop 2 (fun j => forLoop 2 (fun i => forLoop 1 (fun k =>
              accCell ([[Sym.var 10, Sym.var 11], [Sym.var 12, Sym.var 13]] : Grid Sym) i k j j i)))))
        = .ok m ∧
      m.x = ([[Sym.var 0], [Sym.var 1]] : Grid Sym) ∧
      dct_row (some fun _ _ => Sym.var 99) ([[Sym.var 0], [Sym.var 1]] : Grid Sym) 1 2 ([[Sym.var 10, Sym.var 11], [Sym.var 12, Sym.var 13]] : Grid Sym) 1 = .ok x' ∧
      dct_row (some fun _ _ => Sym.var 98) ([[Sym.var 0], [Sym.var 1]] : Grid Sym) 1 2 ([[Sym.var 10, Sym.var 11], [Sym.var 12, Sym.var 13]] : Grid Sym) 1 = .ok x' ∧
      x'.HasShape 2 1 ∧
      ∀ i, i < 2 → ∀ k, k < 1 →
        m.tmp.read i k = some ((List.range 2).foldl
          (fun acc j => acc + Grid.val ([[Sym.var 0], [Sym.var 1]] : Grid Sym) j k
            * (if (1 : Int) = 0 then Grid.val ([[Sym.var 10, Sym.var 11], [Sym.var 12, Sym.var 13]] : Grid Sym) i j else Grid.val ([[Sym.var 10, Sym.var 11], [Sym.var 12, Sym.var 13]] : Grid Sym) j i)) 0) ∧
        x'.read i k = m.tmp.read i k) ∧
    (∃ tmp0 m x', alloc2float (some fun _ _ => Sym.var 99) 1 2 = some tmp0 ∧
      forLoop 2 (fun i m =>
          andThen (forLoop 1 (fun k => zeroCell i k) m)
            (forLoop 2 (fun j => forLoop 1 (fun k => accCell ([[Sym.var 10, Sym.var 11], [Sym.var 12, Sym.var 13]] : Grid Sym) i k j i j))))
          { x := ([[Sym.var 0], [Sym.var 1]] : Grid Sym), tmp := tmp0 }
        = .ok m ∧
      m.x = ([[Sym.var 0], [Sym.var 1]] : Grid Sym) ∧
      dctiv_row (some fun _ _ => Sym.var 99) ([[Sym.var 0], [Sym.var 1]] : Grid Sym) 1 2 ([[Sym.var 10, Sym.var 11], [Sym.var 12, Sym.var 13]] : Grid Sym) = .ok x' ∧
      dctiv_row (some fun _ _ => Sym.var 98) ([[Sym.var 0], [Sym.var 1]] : Grid Sym) 1 2 ([[Sym.var 10, Sym.var 11], [Sym.var 12, Sym.var 13]] : Grid Sym) = .ok x' ∧
      x'.HasShape 2 1 ∧
      ∀ i, i < 2 → ∀ k, k < 1 →
        m.tmp.read i k = some ((List.range 2).foldl
          (fun acc j => acc + Grid.val ([[Sym.var 0], [Sym.var 1]] : Grid Sym) j k * Grid.val ([[Sym.var 10, Sym.var 11], [Sym.var 12, Sym.var 13]] : Grid Sym) i j) 0) ∧
        x'.read i k = m.tmp.read i k)) ∧
    dct_row (some fun _ _ => Sym.var 99) ([[Sym.var 0], [Sym.var 1]] : Grid Sym) 1 2 ([[Sym.var 10, Sym.var 11], [Sym.var 12, Sym.var 13]] : Grid Sym) 1
      = .ok [[Sym.add (Sym.add Sym.zero (Sym.mul (Sym.var 0) (Sym.var 10)))
                (Sym.mul (Sym.var 1) (Sym.var 12))],
             [Sym.add (Sym.add Sym.zero (Sym.mul (Sym.var 0) (Sym.var 11)))
                (Sym.mul (Sym.var 1) (Sym.var 13))]] ∧
    dctiv_row (some fun _ _ => Sym.var 98) ([[Sym.var 0], [Sym.var 1]] : Grid Sym) 1 2 ([[Sym.var 10, Sym.var 11], [Sym.var 12, Sym.var 13]] : Grid Sym)
      = .ok [[Sym.add (Sym.add Sym.zero (Sym.mul (Sym.var 0) (Sym.var 10)))
                (Sym.mul (Sym.var 1) (Sym.var 11))],
             [Sym.add (Sym.add Sym.zero (Sym.mul (Sym.var 0) (Sym.var 12)))
                (Sym.mul (Sym.var 1) (Sym.var 13))]] :=
  ⟨scratch_content_irrelevant (fun _ _ => Sym.var 99) (fun _ _ => Sym.var 98)
    [[Sym.var 0], [Sym.var 1]] [[Sym.var 10, Sym.var 11], [Sym.var 12, Sym.var 13]] 1 2 1
    (by decide) (by decide), by decide, by decide⟩

/-- C16: summation order.  With an addition and a multiplication of which no law is
assumed, each element left by `dct_row` (forward and inverse branch) and by
`dctiv_row` is the accumulation from the left, starting from zero, with `j` ascending:
`((0 + t 0) + t 1) + ... + t (n2-1)`, where `t j = x[j][k] * c[i][j]` (forward, DCT-IV)
or `t j = x[j][k] * c[j][i]` (inverse). -/
theorem summation_order {α : Type} [Zero α] [Add α] [Mul α] (junk : Nat → Nat → α)
    (x c : Grid α) (n1 n2 : Nat) (hx : x.HasShape n2 n1) (hc : c.HasShape n2 n2) :
    ∃ xf xi xiv, dct_row (some junk) x n1 n2 c 0 = .ok xf ∧
      dct_row (some junk) x n1 n2 c 1 = .ok xi ∧
      dctiv_row (some junk) x n1 n2 c = .ok xiv ∧
      ∀ i, i < n2 → ∀ k, k < n1 →
        xf.read i k
          = some ((List.range n2).foldl (fun acc j => acc + x.val j k * c.val i j) 0) ∧
        xi.read i k
          = some ((List.range n2).foldl (fun acc j => acc + x.val j k * c.val j i) 0) ∧
        xiv.read i k
          = some ((List.range n2).foldl (fun acc j => acc + x.val j k * c.val i j) 0) := by
  refine ⟨_, _, _, dct_row_forward_eq junk hx hc, dct_row_inverse_eq junk (by decide) hx hc,
    dctiv_row_eq junk hx hc, ?_⟩
  intro i hi k hk
  rw [Grid.read_of_shape (mixWith_hasShape _ x n1 n2) hi hk,
    Grid.read_of_shape (mixWith_hasShape _ x n1 n2) hi hk,
    mixWith_val _ x hi hk, mixWith_val _ x hi hk, accum_eq_foldl, accum_eq_foldl]
  exact ⟨rfl, rfl, rfl⟩

theorem summation_order_witness :
    (∃ xf xi xiv,
      dct_row (some fun _ _ => Sym.var 99) [[Sym.var 0], [Sym.var 1], [Sym.var 2]] 1 3
        [[Sym.var 10, Sym.var 11, Sym.var 12], [Sym.var 13, Sym.var 14, Sym.var 15],
          [Sym.var 16, Sym.var 17, Sym.var 18]] 0 = .ok xf ∧
      dct_row (some fun _ _ => Sym.var 99) [[Sym.var 0], [Sym.var 1], [Sym.var 2]] 1 3
        [[Sym.var 10, Sym.var 11, Sym.var 12], [Sym.var 13, Sym.var 14, Sym.var 15],
          [Sym.var 16, Sym.var 17, Sym.var 18]] 1 = .ok xi ∧
      dctiv_row (some fun _ _ => Sym.var 99) [[Sym.var 0], [Sym.var 1], [Sym.var 2]] 1 3
        [[Sym.var 10, Sym.var 11, Sym.var 12], [Sym.var 13, Sym.var 14, Sym.var 15],
          [Sym.var 16, Sym.var 17, Sym.var 18]] = .ok xiv ∧
      ∀ i, i < 3 → ∀ k, k < 1 →
        xf.read i k = some ((List.range 3).foldl (fun acc j => acc
          + Grid.val [[Sym.var 0], [Sym.var 1], [Sym.var 2]] j k
          * Grid.val [[Sym.var 10, Sym.var 11, Sym.var 12],
              [Sym.var 13, Sym.var 14, Sym.var 15],
              [Sym.var 16, Sym.var 17, Sym.var 18]] i j) 0) ∧
        xi.read i k = some ((List.range 3).foldl (fun acc j => acc
          + Grid.val [[Sym.var 0], [Sym.var 1], [Sym.var 2]] j k
          * Grid.val [[Sym.var 10, Sym.var 11, Sym.var 12],
              [Sym.var 13, Sym.var 14, Sym.var 15],
              [Sym.var 16, Sym.var 17, Sym.var 18]] j i) 0) ∧
        xiv.read i k = some ((List.range 3).foldl (fun acc j => acc
          + Grid.val [[Sym.var 0], [Sym.var 1], [Sym.var 2]] j k
          * Grid.val [[Sym.var 10, Sym.var 11, Sym.var 12],
              [Sym.var 13, Sym.var 14, Sym.var 15],
              [Sym.var 16, Sym.var 17, Sym.var 18]] i j) 0)) ∧
    (dct_row (some fun _ _ => Sym.var 99) [[Sym.var 0], [Sym.var 1], [Sym.var 2]] 1 3
        [[Sym.var 10, Sym.var 11, Sym.var 12], [Sym.var 13, Sym.var 14, Sym.var 15],
          [Sym.var 16, Sym.var 17, Sym.var 18]] 1).map (fun g => g.read 0 0)
      = .ok (some (Sym.add (Sym.add (Sym.add Sym.zero
          (Sym.mul (Sym.var 0) (Sym.var 10))) (Sym.mul (Sym.var 1) (Sym.var 13)))
          (Sym.mul (Sym.var 2) (Sym.var 16)))) :=
  ⟨summation_order (fun _ _ => Sym.var 99) [[Sym.var 0], [Sym.var 1], [Sym.var 2]]
    [[Sym.var 10, Sym.var 11, Sym.var 12], [Sym.var 13, Sym.var 14, Sym.var 15],
      [Sym.var 16, Sym.var 17, Sym.var 18]] 1 3 (by decide) (by decide), by decide⟩

/-- C17: no failure path under the stated preconditions.  When `x` and the scratch
buffer have `n2` rows of length `n1` and `c` has `n2` rows of length `n2`, every index
used by the mixers (`tmp[i][k]`, `x[j][k]`, `x[i][k]`, `c[i][j]`, `c[j][i]` with
`i, j < n2`, `k < n1`) is in bounds, and `dct_row` (for every type) and `dctiv_row`
complete without stopping. -/
theorem no_failure_path {α : Type} [Zero α] [Add α] [Mul α] (junk : Nat → Nat → α)
    (x c : Grid α) (n1 n2 : Nat) (type : Int)
    (hx : x.HasShape n2 n1) (hc : c.HasShape n2 n2) :
    (∃ tmp, alloc2float (some junk) n1 n2 = some tmp ∧ tmp.HasShape n2 n1 ∧
      ∀ i, i < n2 → ∀ j, j < n2 → ∀ k, k < n1 →
        (tmp.read i k).isSome ∧ (x.read j k).isSome ∧ (x.read i k).isSome ∧
        (c.read i j).isSome ∧ (c.read j i).isSome) ∧
    (∃ x', dct_row (some junk) x n1 n2 c type = .ok x') ∧
    (∃ x', dctiv_row (some junk) x n1 n2 c = .ok x') := by
  refine ⟨⟨_, rfl, Grid.tabulate_hasShape n2 n1 junk, ?_⟩,
    ⟨_, dct_row_eq junk type hx hc⟩, ⟨_, dctiv_row_eq junk hx hc⟩⟩
  intro i hi j hj k hk
  rw [Grid.read_of_shape (Grid.tabulate_hasShape n2 n1 junk) hi hk,
    Grid.read_of_shape hx hj hk, Grid.read_of_shape hx hi hk,
    Grid.read_of_shape hc hi hj, Grid.read_of_shape hc hj hi]
  simp

theorem no_failure_path_witness :
    (∃ tmp, alloc2float (some fun _ _ => (7 : Int)) 2 2 = some tmp ∧ tmp.HasShape 2 2 ∧
      ∀ i, i < 2 → ∀ j, j < 2 → ∀ k, k < 2 →
        (tmp.read i k).isSome ∧ (Grid.read ([[1, 2], [3, 4]] : Grid Int) j k).isSome ∧
        (Grid.read ([[1, 2], [3, 4]] : Grid Int) i k).isSome ∧
        (Grid.read ([[1, 2], [3, 5]] : Grid Int) i j).isSome ∧
        (Grid.read ([[1, 2], [3, 5]] : Grid Int) j i).isSome) ∧
    (∃ x', dct_row (some fun _ _ => 7) ([[1, 2], [3, 4]] : Grid Int) 2 2 [[1, 2], [3, 5]] (-3)
      = .ok x') ∧
    (∃ x', dctiv_row (some fun _ _ => 7) ([[1, 2], [3, 4]] : Grid Int) 2 2 [[1, 2], [3, 5]]
      = .ok x') :=
  no_failure_path (fun _ _ => 7) [[1, 2], [3, 4]] [[1, 2], [3, 5]] 2 2 (-3)
    (by decide) (by decide)

/-- C18: mixers compose as a matrix product.  For `x` with `n2` rows of length `n1`,
`n2 × n2` tables `c` and `d`, and the product table `dc` with
`dc[i][j] = Σ_m d[i][m] * c[m][j]`: the forward mixer with `c` followed by the forward
mixer with `d` leaves the same array as one forward mixer with `dc`; the same holds
for `dctiv_row` (exact arithmetic). -/
theorem mixers_compose {α : Type} [CommRing α] (junk junk' junk'' : Nat → Nat → α)
    (x c d dc : Grid α) (n1 n2 : Nat)
    (hx : x.HasShape n2 n1) (hc : c.HasShape n2 n2) (hd : d.HasShape n2 n2)
    (hdc : dc.HasShape n2 n2)
    (hprod : ∀ i, i < n2 → ∀ j, j < n2 →
      dc.val i j = ∑ m in Finset.range n2, d.val i m * c.val m j) :
    (∃ X Y, dct_row (some junk) x n1 n2 c 0 = .ok X ∧
      dct_row (some junk') X n1 n2 d 0 = .ok Y ∧
      dct_row (some junk'') x n1 n2 dc 0 = .ok Y) ∧
    (∃ X Y, dctiv_row (some junk) x n1 n2 c = .ok X ∧
      dctiv_row (some junk') X n1 n2 d = .ok Y ∧
      dctiv_row (some junk'') x n1 n2 dc = .ok Y) := by
  have e : mixWith (fun i j => dc.val i j) x n1 n2
      = mixWith (fun i j => d.val i j) (mixWith (fun i j => c.val i j) x n1 n2) n1 n2 := by
    rw [mixWith_mixWith]
    apply mixWith_congr
    intro i j hi hj
    rw [hprod i hi j hj]
    exact Finset.sum_congr rfl (fun m _ => mul_comm _ _)
  refine ⟨⟨_, _, dct_row_forward_eq junk hx hc,
      dct_row_forward_eq junk' (mixWith_hasShape _ _ n1 n2) hd, ?_⟩,
    ⟨_, _, dctiv_row_eq junk hx hc, dctiv_row_eq junk' (mixWith_hasShape _ _ n1 n2) hd, ?_⟩⟩
  · rw [dct_row_forward_eq junk'' hx hdc, e]
  · rw [dctiv_row_eq junk'' hx hdc, e]

theorem mixers_compose_witness :
    (∃ X Y, dct_row (some fun _ _ => 7) ([[1, 2], [3, 4]] : Grid Int) 2 2 [[1, 2], [3, 5]] 0
        = .ok X ∧
      dct_row (some fun _ _ => 8) X 2 2 [[0, 1], [2, -1]] 0 = .ok Y ∧
      dct_row (some fun _ _ => 9) ([[1, 2], [3, 4]] : Grid Int) 2 2 [[3, 5], [-1, -1]] 0
        = .ok Y) ∧
    (∃ X Y, dctiv_row (some fun _ _ => 7) ([[1, 2], [3, 4]] : Grid Int) 2 2 [[1, 2], [3, 5]]
        = .ok X ∧
      dctiv_row (some fun _ _ => 8) X 2 2 [[0, 1], [2, -1]] = .ok Y ∧
      dctiv_row (some fun _ _ => 9) ([[1, 2], [3, 4]] : Grid Int) 2 2 [[3, 5], [-1, -1]]
        = .ok Y) :=
  mixers_compose (fun _ _ => 7) (fun _ _ => 8) (fun _ _ => 9)
    [[1, 2], [3, 4]] [[1, 2], [3, 5]] [[0, 1], [2, -1]] [[3, 5], [-1, -1]] 2 2
    (by decide) (by decide) (by decide) (by decide) (by decide)

/-- C19: separability.  When the one-dimensional primitive is a linear map on rows of
length `n1`, the two passes of `dct_2` commute: `dct_2` (the primitive on every row,
then `dct_row`) leaves what `dct_row` followed by the primitive on every row leaves, for
every `x`, `c2` and type; likewise for `dctiv_2` with `dctiv` and `dctiv_row` (exact
arithmetic). -/
theorem passes_commute {α : Type} [MulZeroClass α] [Add α] (junk junk' : Nat → Nat → α)
    (dct : List α → Nat → Grid α → Int → List α) (dctiv : List α → Nat → Grid α → List α)
    (x : Grid α) (n1 n2 : Nat) (c1 c2 : Grid α) (type : Int)
    (hx : x.HasShape n2 n1) (hc : c2.HasShape n2 n2)
    (hdct : LinearOnRows (fun r => dct r n1 c1 type) n1)
    (hdctiv : LinearOnRows (fun r => dctiv r n1 c1) n1) :
    (∃ B, dct_row (some junk') x n1 n2 c2 type = .ok B ∧
      dct_row (some junk) (x.map fun row => dct row n1 c1 type) n1 n2 c2 type
        = .ok (B.map fun row => dct row n1 c1 type) ∧
      dct_2 (some junk) dct x n1 n2 c1 c2 type
        = .ok (B.map fun row => dct row n1 c1 type)) ∧
    (∃ B, dctiv_row (some junk') x n1 n2 c2 = .ok B ∧
      dctiv_row (some junk) (x.map fun row => dctiv row n1 c1) n1 n2 c2
        = .ok (B.map fun row => dctiv row n1 c1) ∧
      dctiv_2 (some junk) dctiv x n1 n2 c1 c2
        = .ok (B.map fun row => dctiv row n1 c1)) := by
  refine ⟨⟨_, dct_row_eq junk' type hx hc, ?_, ?_⟩, ⟨_, dctiv_row_eq junk' hx hc, ?_, ?_⟩⟩
  · rw [dct_row_eq junk type (map_hasShape hdct.1 hx) hc, map_mixWith hdct _ hx]
  · rw [dct_2_ok junk dct c1 type hx hc hdct.1, map_mixWith hdct _ hx]
  · rw [dctiv_row_eq junk (map_hasShape hdctiv.1 hx) hc, map_mixWith hdctiv _ hx]
  · rw [dctiv_2_ok junk dctiv c1 hx hc hdctiv.1, map_mixWith hdctiv _ hx]

theorem passes_commute_witness :
    (∃ B, dct_row (some fun _ _ => 8) ([[1, 2], [3, 4]] : Grid Int) 2 2 [[1, 2], [3, 5]] 1
        = .ok B ∧
      dct_row (some fun _ _ => 7) (([[1, 2], [3, 4]] : Grid Int).map fun row =>
          (fun (r : List Int) (_ : Nat) (_ : Grid Int) (_ : Int) => r.reverse) row 2 [] 1)
          2 2 [[1, 2], [3, 5]] 1
        = .ok (B.map fun row =>
          (fun (r : List Int) (_ : Nat) (_ : Grid Int) (_ : Int) => r.reverse) row 2 [] 1) ∧
      dct_2 (some fun _ _ => 7) (fun r _ _ _ => r.reverse) ([[1, 2], [3, 4]] : Grid Int)
          2 2 [] [[1, 2], [3, 5]] 1
        = .ok (B.map fun row =>
          (fun (r : List Int) (_ : Nat) (_ : Grid Int) (_ : Int) => r.reverse) row 2 [] 1)) ∧
    (∃ B, dctiv_row (some fun _ _ => 8) ([[1, 2], [3, 4]] : Grid Int) 2 2 [[1, 2], [3, 5]]
        = .ok B ∧
      dctiv_row (some fun _ _ => 7) (([[1, 2], [3, 4]] : Grid Int).map fun row =>
          (fun (r : List Int) (_ : Nat) (_ : Grid Int) => r.reverse) row 2 [])
          2 2 [[1, 2], [3, 5]]
        = .ok (B.map fun row =>
          (fun (r : List Int) (_ : Nat) (_ : Grid Int) => r.reverse) row 2 []) ∧
      dctiv_2 (some fun _ _ => 7) (fun r _ _ => r.reverse) ([[1, 2], [3, 4]] : Grid Int)
          2 2 [] [[1, 2], [3, 5]]
        = .ok (B.map fun row =>
          (fun (r : List Int) (_ : Nat) (_ : Grid Int) => r.reverse) row 2 [])) :=
  passes_commute (fun _ _ => 7) (fun _ _ => 8) (fun r _ _ _ => r.reverse)
    (fun r _ _ => r.reverse) [[1, 2], [3, 4]] 2 2 [] [[1, 2], [3, 5]] 1
    (by decide) (by decide) (linearOnRows_reverse 2) (linearOnRows_reverse 2)

/-- C20: any non-zero type flag selects the inverse mixer.  For every integer `type`
other than `0` (negative values included), every allocator outcome, every `x` and `c`,
`dct_row` with `type` gives the result of `dct_row` with type `1`. -/
theorem nonzero_type_is_inverse {α : Type} [Zero α] [Add α] [Mul α]
    (heap : Option (Nat → Nat → α)) (x : Grid α) (n1 n2 : Nat) (c : Grid α) (type : Int)
    (ht : type ≠ 0) :
    dct_row heap x n1 n2 c type = dct_row heap x n1 n2 c 1 := by
  have h1 : ¬ ((1 : Int) = 0) := by decide
  simp only [dct_row, ht, h1, if_false]

theorem nonzero_type_is_inverse_witness :
    dct_row (some fun _ _ => 7) ([[1, 2], [3, 4]] : Grid Int) 2 2 [[1, 2], [3, 5]] (-2)
      = dct_row (some fun _ _ => 7) ([[1, 2], [3, 4]] : Grid Int) 2 2 [[1, 2], [3, 5]] 1 ∧
    dct_row (some fun _ _ => 7) ([[1, 2], [3, 4]] : Grid Int) 2 2 [[1, 2], [3, 5]] (-2)
      = .ok [[10, 14], [17, 24]] ∧
    dct_row (some fun _ _ => 7) ([[1, 2], [3, 4]] : Grid Int) 2 2 [[1, 2], [3, 5]] 0
      = .ok [[7, 10], [18, 26]] :=
  ⟨nonzero_type_is_inverse (some fun _ _ => 7) [[1, 2], [3, 4]] 2 2 [[1, 2], [3, 5]] (-2)
    (by decide), by decide, by decide⟩

end Dct2
